import Mathlib

/-!
Shallow embedding of the sudoku-solver repository (Go) for claim verification.

Conventions of the embedding:
* Go `int` is modelled as `Int` (values, rows, columns, candidates, indices).
* Go `map[int]bool` candidate sets are modelled as duplicate-free `List Int`;
  `delete` is `List.filter`, membership is list membership, `len` is `List.length`.
  Where Go iterates a map in unspecified order the model iterates in a fixed
  (first-occurrence or ascending) order; all such loops only remove candidates,
  so the resulting state does not depend on the order.
* `nil` cell pointers are modelled with `Option`; a board owns a list of cells
  indexed by `row*9+col` exactly as the Go `[81]*Cell` array (after `NewBoard`
  every slot is non-nil, which corresponds to an 81-element list).
* Observer fan-out: the only observers that mutate state are constraints
  reacting to `OnCellSolved` (the base-constraint handlers for the other two
  events are no-ops, and the optional external auto-solver only records
  notifications).  Cell-solved dispatch is therefore modelled as a fold of
  `propagateValueChange` over the registered constraints whose scope contains
  the solved cell, and the fired notifications are returned as a list.
-/

/-- Mirrors `BoardError` from board.go. -/
structure BoardError where
  message : String
  deriving Repr, DecidableEq

/-- Events fired through `CellNotifier` (observer.go). -/
inductive Notification where
  | cellSolved (row col value : Int)
  | candidateEliminated (row col candidate remainingCount : Int)
  | singleCandidate (row col candidate : Int)
  deriving Repr, DecidableEq

/-- Mirrors the `Cell` struct (value, candidate set, fixed position). The
`index` field of the Go struct is always `row*9+col` and is recomputed where
needed; the board back-reference is only used for logging in the source. -/
structure Cell where
  row : Int
  col : Int
  value : Int
  candidates : List Int
  deriving Repr, DecidableEq

/-- Digits 1..9, the loop `for i := 1; i <= 9; i++`. -/
def digitList : List Int := [1, 2, 3, 4, 5, 6, 7, 8, 9]

/-- Line indices 0..8, the loop `for line := 0; line < 9; line++`. -/
def lineList : List Int := [0, 1, 2, 3, 4, 5, 6, 7, 8]

/-- Mirrors `NewCell`: value 0, all nine candidates. -/
def newCell (row col : Int) : Cell :=
  { row := row, col := col, value := 0, candidates := digitList }

/-- Mirrors `utils.GetCandidatesAsSlice`: walk digits 1..9 in ascending order
and keep those present in the candidate set. -/
def candSlice (cands : List Int) : List Int :=
  digitList.filter (fun d => decide (d ∈ cands))

/-- Mirrors `Cell.IsSolved`. -/
def cellIsSolved (c : Cell) : Bool :=
  decide (c.value ≠ 0)

/-- Mirrors `Cell.HasCandidate`: solved cells report no candidates. -/
def cellHasCandidate (c : Cell) (candidate : Int) : Bool :=
  if c.value ≠ 0 then false else decide (candidate ∈ c.candidates)

/-- Mirrors `Cell.GetCandidates`: empty once a value is set. -/
def cellGetCandidates (c : Cell) : List Int :=
  if c.value ≠ 0 then [] else c.candidates

/-- Mirrors `Cell.CandidateCount`. -/
def cellCandidateCount (c : Cell) : Nat :=
  if c.value ≠ 0 then 0 else c.candidates.length

/-- Mirrors `Cell.SetValue`.  Returns the updated cell, the error (if any) and
the notifications fired by the cell itself (`NotifyCellSolved` only; observer
reactions are modelled at board level).  Note that the `value = 0` branch
clears the value but leaves the candidate set untouched. -/
def cellSetValue (c : Cell) (value : Int) : Cell × Option BoardError × List Notification :=
  if value < 0 ∨ value > 9 then
    (c, some { message := "value must be between 0 and 9" }, [])
  else if value ≠ 0 then
    ({ c with value := value, candidates := [] }, none,
      [Notification.cellSolved c.row c.col value])
  else
    ({ c with value := value }, none, [])

/-- Mirrors `Cell.RemoveCandidate`: no-op if solved or absent; otherwise the
candidate is deleted and `CandidateEliminated` fires, followed by
`SingleCandidate` when exactly one candidate remains. -/
def cellRemoveCandidate (c : Cell) (candidate : Int) : Cell × List Notification :=
  if c.value = 0 ∧ candidate ∈ c.candidates then
    let remaining := c.candidates.filter (fun x => x != candidate)
    let remainingCount := remaining.length
    ({ c with candidates := remaining },
      Notification.candidateEliminated c.row c.col candidate (remainingCount : Int) ::
        (if remainingCount = 1 then
          [Notification.singleCandidate c.row c.col ((candSlice remaining).headD 0)]
        else []))
  else (c, [])

/-- Mirrors `Cell.AddCandidate` (guarded insert; no notification). -/
def cellAddCandidate (c : Cell) (candidate : Int) : Cell :=
  if c.value = 0 ∧ 1 ≤ candidate ∧ candidate ≤ 9 then
    if candidate ∈ c.candidates then c
    else { c with candidates := c.candidates ++ [candidate] }
  else c

/-- Mirrors `utils.HasUniqueNonZeros` (the `seen` map is a list). -/
def hasUniqueNonZerosAux : List Int → List Int → Bool
  | [], _ => true
  | v :: rest, seen =>
    if v = 0 then hasUniqueNonZerosAux rest seen
    else if v < 1 ∨ v > 9 then false
    else if v ∈ seen then false
    else hasUniqueNonZerosAux rest (v :: seen)

/-- Mirrors `utils.HasUniqueNonZeros`. -/
def hasUniqueNonZeros (values : List Int) : Bool :=
  hasUniqueNonZerosAux values []

/-- Helper for `generateCombinations`: combinations of `k` indices drawn in
increasing order from `start..n-1`, in the order the recursive Go generator
emits them. -/
def combosAux (n : Nat) : Nat → Nat → List (List Nat)
  | 0, _ => [[]]
  | k + 1, start =>
    ((List.range n).drop start).map
      (fun i => (combosAux n k (i + 1)).map (fun rest => i :: rest)) |>.flatten

/-- Mirrors `utils.GenerateCombinations` (k of n, lexicographic order). -/
def generateCombinations (n k : Nat) : List (List Nat) :=
  if k > n then [] else combosAux n k 0

/-- All ordered pairs `(l[i], l[j])` with `i < j`, the double loop over found
lines in the X-Wing code. -/
def pairsOf : List Int → List (Int × Int)
  | [] => []
  | x :: xs => xs.map (fun y => (x, y)) ++ pairsOf xs

/-- All ordered triples `(l[i], l[j], l[k])` with `i < j < k` (Swordfish). -/
def triplesOf : List Int → List (Int × Int × Int)
  | [] => []
  | x :: xs => (pairsOf xs).map (fun p => (x, p.1, p.2)) ++ triplesOf xs

/-- Mirrors `Board.GetCell`: `nil` outside 0..80 (or when the backing list is
too short, which does not occur for boards built by `newBoard`). -/
def cellAt (cells : List Cell) (index : Int) : Option Cell :=
  if index < 0 ∨ index > 80 then none else cells[index.toNat]?

/-- Mirrors `Board.GetCellAt`. -/
def getCellAt (cells : List Cell) (row col : Int) : Option Cell :=
  if row < 0 ∨ row > 8 ∨ col < 0 ∨ col > 8 then none
  else cells[(row * 9 + col).toNat]?

/-- Mirrors `Board.Get`: bounds failure and nil cells read as 0. -/
def boardGetCells (cells : List Cell) (row col : Int) : Int :=
  if row < 0 ∨ row > 8 ∨ col < 0 ∨ col > 8 then 0
  else
    match cells[(row * 9 + col).toNat]? with
    | none => 0
    | some c => c.value

/-- Replace the cell at a (valid) index; invalid indices leave the board
unchanged (the Go code never updates through an invalid index). -/
def setCellAt (cells : List Cell) (index : Int) (c : Cell) : List Cell :=
  if index < 0 ∨ index > 80 then cells else cells.set index.toNat c

/-- Board-level candidate removal: update the cell in place and collect the
notifications it fired (no observer mutates state on these events). -/
def removeCandAt (cells : List Cell) (index candidate : Int) : List Cell × List Notification :=
  match cellAt cells index with
  | none => (cells, [])
  | some c =>
    let r := cellRemoveCandidate c candidate
    (setCellAt cells index r.1, r.2)

/-- `HasCandidate` read through the board (false for nil cells). -/
def hasCandidateAt (cells : List Cell) (index candidate : Int) : Bool :=
  match cellAt cells index with
  | none => false
  | some c => cellHasCandidate c candidate

/-- `cell != nil && !cell.IsSolved()`, the filter used by the subset engine. -/
def isUnsolvedAt (cells : List Cell) (index : Int) : Bool :=
  match cellAt cells index with
  | none => false
  | some c => !cellIsSolved c

/-- Candidates of the cell at an index as the engine reads them
(`cell.GetCandidates()`), empty for nil or solved cells. -/
def candsAt (cells : List Cell) (index : Int) : List Int :=
  match cellAt cells index with
  | none => []
  | some c => cellGetCandidates c

/-- Value of the cell at an index (`cell.GetValue()`), 0 for nil cells. -/
def valueAt (cells : List Cell) (index : Int) : Int :=
  match cellAt cells index with
  | none => 0
  | some c => c.value

/-- Adjacent pairs `(cells[i], cells[i+1])`, the loop of the
German-Whispers validity check. -/
def pairsAdjacent : List Int → List (Int × Int)
  | a :: b :: rest => (a, b) :: pairsAdjacent (b :: rest)
  | _ => []

/-- Mirrors the Renban loop `for i := 1; i < len(sorted); i++` checking
`sorted[i] == sorted[i-1]+1`. -/
def consecutiveSorted : List Int → Bool
  | a :: b :: rest => if b = a + 1 then consecutiveSorted (b :: rest) else false
  | _ => true

/-- The six constraint variants of the repository. -/
inductive Constraint where
  | rowC (row : Int)
  | colC (col : Int)
  | boxC (box : Int)
  | killerCage (cells : List Int) (targetSum : Int)
  | renban (cells : List Int)
  | germanWhispers (cells : List Int)
  deriving Repr, DecidableEq

/-- Mirrors `GetCells` of each variant: the scope built by the constructor
(row/column/box formulas) or the stored cell list. -/
def Constraint.scope : Constraint → List Int
  | .rowC row => lineList.map (fun col => row * 9 + col)
  | .colC col => lineList.map (fun row => row * 9 + col)
  | .boxC box =>
    let boxRow := (box / 3) * 3
    let boxCol := (box % 3) * 3
    ([0, 1, 2] : List Int).map
      (fun r => ([0, 1, 2] : List Int).map (fun c => (boxRow + r) * 9 + (boxCol + c)))
      |>.flatten
  | .killerCage cells _ => cells
  | .renban cells => cells
  | .germanWhispers cells => cells

/-- Mirrors `RequiresUniqueness` of each variant. -/
def Constraint.requiresUniqueness : Constraint → Bool
  | .germanWhispers _ => false
  | _ => true

/-- Values read by the uniqueness checks: `GetRow`/`GetColumn`/`GetBox` for
line and box constraints (nil cells read as 0), `board.Get` per scope index
for the list-scoped variants. -/
def constraintValues (con : Constraint) (cells : List Cell) : List Int :=
  match con with
  | .rowC row => lineList.map (fun i => valueAt cells (row * 9 + i))
  | .colC col => lineList.map (fun r => valueAt cells (r * 9 + col))
  | .boxC box =>
    let boxRow := (box / 3) * 3
    let boxCol := (box % 3) * 3
    ([0, 1, 2] : List Int).map
      (fun r => ([0, 1, 2] : List Int).map
        (fun c => valueAt cells ((boxRow + r) * 9 + (boxCol + c))))
      |>.flatten
  | .killerCage cageCells _ =>
    cageCells.map (fun idx => boardGetCells cells (idx / 9) (idx % 9))
  | .renban lineCells =>
    lineCells.map (fun idx => boardGetCells cells (idx / 9) (idx % 9))
  | .germanWhispers lineCells =>
    lineCells.map (fun idx => boardGetCells cells (idx / 9) (idx % 9))

/-- Mirrors the `IsValid` method of each variant.  The `nil` board reports the
NilGrid error exactly as in the source; call sites always pass `some`. -/
def constraintIsValid (con : Constraint) (boardCells : Option (List Cell)) :
    Except BoardError Bool :=
  match boardCells with
  | none => .error { message := "board cannot be nil" }
  | some cells =>
    match con with
    | .rowC _ => .ok (hasUniqueNonZeros (constraintValues con cells))
    | .colC _ => .ok (hasUniqueNonZeros (constraintValues con cells))
    | .boxC _ => .ok (hasUniqueNonZeros (constraintValues con cells))
    | .killerCage _ targetSum =>
      let values := constraintValues con cells
      let sum := (values.filter (fun v => v != 0)).sum
      let hasEmpty := values.any (fun v => v == 0)
      if !hasUniqueNonZeros values then .ok false
      else if !hasEmpty then .ok (decide (sum = targetSum))
      else .ok (decide (sum ≤ targetSum))
    | .renban _ =>
      let values := constraintValues con cells
      let hasEmpty := values.any (fun v => v == 0)
      if hasEmpty then .ok (hasUniqueNonZeros values)
      else if !hasUniqueNonZeros values then .ok false
      else
        let sorted := values.mergeSort (fun a b => a ≤ b)
        .ok (consecutiveSorted sorted)
    | .germanWhispers lineCells =>
      .ok ((pairsAdjacent lineCells).all (fun p =>
        let val1 := boardGetCells cells (p.1 / 9) (p.1 % 9)
        let val2 := boardGetCells cells (p.2 / 9) (p.2 % 9)
        if val1 == 0 || val2 == 0 then true
        else decide (5 ≤ (val1 - val2).natAbs)))

/-- The uniqueness-removal loop shared verbatim by the row, column, box,
killer-cage and renban `PropagateValueChange` bodies: remove the solved value
from every other unsolved cell of the scope, accumulating notifications. -/
def propagateUniqueRemoval (scope : List Int) (row col value : Int)
    (st : List Cell × List Notification) : List Cell × List Notification :=
  scope.foldl (fun acc cellIndex =>
    let otherRow := cellIndex / 9
    let otherCol := cellIndex % 9
    if otherRow ≠ row ∨ otherCol ≠ col then
      match getCellAt acc.1 otherRow otherCol with
      | none => acc
      | some otherCell =>
        if !cellIsSolved otherCell then
          let r := cellRemoveCandidate otherCell value
          (setCellAt acc.1 (otherRow * 9 + otherCol) r.1, acc.2 ++ r.2)
        else acc
    else acc) st

/-- The remaining-sum pruning phase of `KillerCageConstraint.PropagateValueChange`. -/
def killerSumPruning (cageCells : List Int) (targetSum : Int)
    (st : List Cell × List Notification) : List Cell × List Notification :=
  let currentSum := (cageCells.map (fun idx =>
    match getCellAt st.1 (idx / 9) (idx % 9) with
    | none => 0
    | some c => if c.value ≠ 0 then c.value else 0)).sum
  let filledCount : Int := (cageCells.filter (fun idx =>
    match getCellAt st.1 (idx / 9) (idx % 9) with
    | none => false
    | some c => c.value != 0)).length
  let remainingCells := (cageCells.length : Int) - filledCount
  let remainingSum := targetSum - currentSum
  cageCells.foldl (fun acc idx =>
    match getCellAt acc.1 (idx / 9) (idx % 9) with
    | none => acc
    | some otherCell =>
      if otherCell.value = 0 then
        digitList.foldl (fun acc2 candidate =>
          if remainingCells = 1 then
            if candidate ≠ remainingSum then
              let r := removeCandAt acc2.1 (idx / 9 * 9 + idx % 9) candidate
              (r.1, acc2.2 ++ r.2)
            else acc2
          else
            let minPossibleSum := remainingCells - 1
            let maxPossibleSum := (remainingCells - 1) * 9
            if remainingSum - candidate < minPossibleSum ∨
                remainingSum - candidate > maxPossibleSum then
              let r := removeCandAt acc2.1 (idx / 9 * 9 + idx % 9) candidate
              (r.1, acc2.2 ++ r.2)
            else acc2) acc
      else acc) st

/-- The consecutive-range pruning phase of `RenbanConstraint.PropagateValueChange`. -/
def renbanRangePruning (lineCells : List Int) (value : Int)
    (st : List Cell × List Notification) : List Cell × List Notification :=
  let currentValues := (lineCells.map (fun idx =>
    match getCellAt st.1 (idx / 9) (idx % 9) with
    | none => 0
    | some c => c.value)).filter (fun v => v != 0)
  let minVal := currentValues.foldl (fun m v => if v < m then v else m) value
  let maxVal := currentValues.foldl (fun m v => if v > m then v else m) value
  let totalCells := (lineCells.length : Int)
  lineCells.foldl (fun acc idx =>
    match getCellAt acc.1 (idx / 9) (idx % 9) with
    | none => acc
    | some otherCell =>
      if otherCell.value = 0 then
        digitList.foldl (fun acc2 candidate =>
          let newMin := if candidate < minVal then candidate else minVal
          let newMax := if candidate > maxVal then candidate else maxVal
          let rangeSize := newMax - newMin + 1
          if rangeSize > totalCells then
            let r := removeCandAt acc2.1 (idx / 9 * 9 + idx % 9) candidate
            (r.1, acc2.2 ++ r.2)
          else acc2) acc
      else acc) st

/-- Neighbour pruning of `GermanWhispersConstraint.PropagateValueChange`:
remove every candidate within 4 of the solved value from one unsolved
neighbour. -/
def whispersPruneNeighbour (neighbourIdx value : Int)
    (st : List Cell × List Notification) : List Cell × List Notification :=
  match getCellAt st.1 (neighbourIdx / 9) (neighbourIdx % 9) with
  | none => st
  | some nCell =>
    if !cellIsSolved nCell then
      digitList.foldl (fun acc candidate =>
        if (candidate - value).natAbs < 5 then
          let r := removeCandAt acc.1 (neighbourIdx / 9 * 9 + neighbourIdx % 9) candidate
          (r.1, acc.2 ++ r.2)
        else acc) st
    else st

/-- The body of `GermanWhispersConstraint.PropagateValueChange`: locate the
solved cell in the ordered line (first occurrence, `-1` becomes `none`), then
prune the previous neighbour (when one exists) and afterwards the next
neighbour (when one exists). -/
def whispersPropagate (lineCells : List Int) (row col value : Int)
    (cells : List Cell) : List Cell × List Notification :=
  match List.indexOf? (row * 9 + col) lineCells with
  | none => (cells, [])
  | some pos =>
    if pos < lineCells.length - 1 then
      whispersPruneNeighbour (lineCells.getD (pos + 1) 0) value
        (if 0 < pos then
          whispersPruneNeighbour (lineCells.getD (pos - 1) 0) value (cells, [])
        else (cells, []))
    else
      (if 0 < pos then
        whispersPruneNeighbour (lineCells.getD (pos - 1) 0) value (cells, [])
      else (cells, []))

/-- Mirrors `PropagateValueChange` of each variant (the observer reaction to
`OnCellSolved`). -/
def Constraint.propagateValueChange (con : Constraint) (cells : List Cell)
    (row col value : Int) : List Cell × List Notification :=
  if value = 0 then (cells, [])
  else
    match con with
    | .rowC _ | .colC _ | .boxC _ =>
      propagateUniqueRemoval con.scope row col value (cells, [])
    | .killerCage cageCells targetSum =>
      killerSumPruning cageCells targetSum
        (propagateUniqueRemoval cageCells row col value (cells, []))
    | .renban lineCells =>
      renbanRangePruning lineCells value
        (propagateUniqueRemoval lineCells row col value (cells, []))
    | .germanWhispers lineCells =>
      whispersPropagate lineCells row col value cells

/-- The grid: 81 cells plus the registered constraints (board-level observers
are not modelled; the only one in the repository never mutates the board). -/
structure Board where
  cells : List Cell
  constraints : List Constraint
  deriving Repr, DecidableEq

/-- Mirrors `NewBoard`. -/
def newBoard : Board :=
  { cells := (List.range 81).map (fun i => newCell ((i : Int) / 9) ((i : Int) % 9)),
    constraints := [] }

/-- Mirrors `Board.AddConstraint`: register the constraint; the cell
subscriptions and grid back-reference are implicit in the model (cell-solved
dispatch walks the registered constraints whose scope holds the cell). -/
def addConstraint (b : Board) (con : Constraint) : Board :=
  { b with constraints := b.constraints ++ [con] }

/-- Mirrors `Board.Get`. -/
def boardGet (b : Board) (row col : Int) : Int :=
  boardGetCells b.cells row col

/-- Mirrors `Board.Set` followed by the synchronous observer fan-out of
`Cell.SetValue`: bounds check, delegate to the cell, then (for a nonzero
value) every subscribed constraint runs `PropagateValueChange`.  Returns the
board, the error (if any) and all notifications fired during the call.  On
any error the board is returned untouched, exactly as in the source where the
checks precede every mutation. -/
def boardSet (b : Board) (row col value : Int) :
    Board × Option BoardError × List Notification :=
  if row < 0 ∨ row > 8 ∨ col < 0 ∨ col > 8 then
    (b, some { message := "invalid position: row=" ++ toString row ++
      ", col=" ++ toString col }, [])
  else
    let index := row * 9 + col
    let c := (b.cells[index.toNat]?).getD (newCell row col)
    match cellSetValue c value with
    | (_, some e, _) => (b, some e, [])
    | (c1, none, cellNotifs) =>
      let cells1 := b.cells.set index.toNat c1
      if value ≠ 0 then
        let r := b.constraints.foldl (fun acc con =>
          if index ∈ con.scope then
            let p := con.propagateValueChange acc.1 row col value
            (p.1, acc.2 ++ p.2)
          else acc) (cells1, cellNotifs)
        ({ b with cells := r.1 }, none, r.2)
      else
        ({ b with cells := cells1 }, none, cellNotifs)

/-- Fold a list of `set` calls, accumulating errors and notifications (the
driver pattern of the demo entry point and the test fixtures). -/
def boardSetSeq (b : Board) (ops : List (Int × Int × Int)) :
    Board × List BoardError × List Notification :=
  ops.foldl (fun acc op =>
    let r := boardSet acc.1 op.1 op.2.1 op.2.2
    (r.1, acc.2.1 ++ (match r.2.1 with | none => [] | some e => [e]),
      acc.2.2 ++ r.2.2)) (b, [], [])

/-- The elimination loop shared by every deduction technique:
`if cell.HasCandidate(c) { cell.RemoveCandidate(c); changed = true }` folded
over a list of `(cellIndex, candidate)` targets. -/
def elimFold (st : List Cell × Bool) (targets : List (Int × Int)) : List Cell × Bool :=
  targets.foldl (fun acc t =>
    if hasCandidateAt acc.1 t.1 t.2 then
      ((removeCandAt acc.1 t.1 t.2).1, true)
    else acc) st

/-- Union of the candidate sets of the cells at the given indices
(the `candidateUnion` map of `ApplyNakedSubsets`), first-occurrence order. -/
def candidateUnionAt (cells : List Cell) (idxs : List Int) : List Int :=
  idxs.foldl (fun acc i =>
    (candsAt cells i).foldl (fun a c => if c ∈ a then a else a ++ [c]) acc) []

/-- The combination lists walked by `for subsetSize := 2; subsetSize <= maxSize`
with `GenerateCombinations(n, subsetSize)` inside. -/
def subsetCombos (n maxSize : Nat) : List (List Nat) :=
  ((List.range' 2 (maxSize - 1)).map (fun k => generateCombinations n k)).flatten

/-- One combination of the naked-subset loop: test whether the union of the
chosen unsolved cells has exactly `subsetSize` candidates and, if so, strip
those candidates from every unsolved scope cell outside the subset. -/
def nakedStep (unsolved : List Int) (st : List Cell × Bool) (combo : List Nat) :
    List Cell × Bool :=
  let subsetIdx := combo.map (fun p => unsolved.getD p 0)
  let candidateUnion := candidateUnionAt st.1 subsetIdx
  if candidateUnion.length = combo.length then
    elimFold st
      (((unsolved.filter (fun i => decide (i ∉ subsetIdx))).map
        (fun i => candidateUnion.map (fun c => (i, c)))).flatten)
  else st

/-- Mirrors `ApplyNakedSubsets`. -/
def applyNakedSubsets (cells : List Cell) (cellIndices : List Int)
    (maxSubsetSize : Nat) : List Cell × Bool :=
  if cellIndices.isEmpty then (cells, false)
  else
    let unsolved := cellIndices.filter (fun i => isUnsolvedAt cells i)
    if unsolved.length < 2 then (cells, false)
    else
      let maxSize :=
        if unsolved.length < maxSubsetSize then unsolved.length else maxSubsetSize
      (subsetCombos unsolved.length maxSize).foldl (nakedStep unsolved) (cells, false)

/-- One combination of the hidden-subset loop over active digits: if the cells
holding any of the chosen digits number exactly `subsetSize`, strip every
other digit from those cells.  `locs` is the `candidateLocations` snapshot. -/
def hiddenStep (active : List Int) (locs : Int → List Int)
    (st : List Cell × Bool) (combo : List Nat) : List Cell × Bool :=
  let subsetCandidates := combo.map (fun p => active.getD p 0)
  let cellUnion := ((subsetCandidates.map locs).flatten).foldl
    (fun a i => if i ∈ a then a else a ++ [i]) []
  if cellUnion.length = combo.length then
    elimFold st
      ((cellUnion.map (fun i =>
        (digitList.filter (fun d => decide (d ∉ subsetCandidates))).map
          (fun d => (i, d)))).flatten)
  else st

/-- Mirrors `ApplyHiddenSubsets` (locations are computed once from the state
at entry, exactly like the Go `candidateLocations` map). -/
def applyHiddenSubsets (cells : List Cell) (cellIndices : List Int)
    (maxSubsetSize : Nat) : List Cell × Bool :=
  if cellIndices.isEmpty then (cells, false)
  else
    let unsolved := cellIndices.filter (fun i => isUnsolvedAt cells i)
    if unsolved.length < 2 then (cells, false)
    else
      let locs := fun d => unsolved.filter (fun i => decide (d ∈ candsAt cells i))
      let active := digitList.filter (fun d => 2 ≤ (locs d).length)
      if active.length < 2 then (cells, false)
      else
        let maxSize :=
          if active.length < maxSubsetSize then active.length else maxSubsetSize
        (subsetCombos active.length maxSize).foldl (hiddenStep active locs) (cells, false)

/-- The naked-then-hidden composition every uniqueness constraint uses in its
`ApplyPencilMarkConstraints` method (`changed = Naked(..) || changed` then
`changed = Hidden(..) || changed`). -/
def applySubsetTechniques (cells : List Cell) (scope : List Int) (maxSize : Nat) :
    List Cell × Bool :=
  let n := applyNakedSubsets cells scope maxSize
  let h := applyHiddenSubsets n.1 scope maxSize
  (h.1, n.2 || h.2)

/-- Mirrors the `ApplyPencilMarkConstraints` method of each variant: cap 4 for
the 9-cell line/box scopes, `min(4, len)` for cages and renban lines, nothing
for German Whispers. -/
def Constraint.applyPencilMarkPass (con : Constraint) (cells : List Cell) :
    List Cell × Bool :=
  match con with
  | .rowC _ | .colC _ | .boxC _ => applySubsetTechniques cells con.scope 4
  | .killerCage cageCells _ =>
    applySubsetTechniques cells cageCells
      (if cageCells.length < 4 then cageCells.length else 4)
  | .renban lineCells =>
    applySubsetTechniques cells lineCells
      (if lineCells.length < 4 then lineCells.length else 4)
  | .germanWhispers _ => (cells, false)

/-- Mirrors `Board.ApplyPencilMarkConstraints`: run the subset engine for every
uniqueness-requiring constraint, reporting whether anything was eliminated. -/
def applyPencilMarkConstraints (b : Board) : Board × Bool :=
  let r := b.constraints.foldl (fun acc con =>
    if con.requiresUniqueness then
      let p := con.applyPencilMarkPass acc.1
      (p.1, acc.2 || p.2)
    else acc) (b.cells, false)
  ({ b with cells := r.1 }, r.2)

/-- Total number of candidates on the board, the termination measure of §5 of
the specification. -/
def totalCands (cells : List Cell) : Nat :=
  (cells.map (fun c => c.candidates.length)).sum

/-- Fuelled unfolding of the `ApplyPencilMarkConstraintsUntilStable` loop; the
fuel is only a recursion bound, and `untilStableFuel_adequate` below shows the
bound `totalCands + 1` is never exhausted. -/
def untilStableFuel : Nat → Board → Board × Nat
  | 0, b => (b, 0)
  | fuel + 1, b =>
    let r := applyPencilMarkConstraints b
    if r.2 then
      let rest := untilStableFuel fuel r.1
      (rest.1, rest.2 + 1)
    else (r.1, 1)

/-- Mirrors `Board.ApplyPencilMarkConstraintsUntilStable`: repeat the pass
until it reports no change, returning the final board and the iteration
count. -/
def applyPencilMarkUntilStable (b : Board) : Board × Nat :=
  untilStableFuel (totalCands b.cells + 1) b

/-- All board indices 0..80 in order (`for idx := 0; idx < 81; idx++`). -/
def iota81 : List Int :=
  [0, 1, 2, 3, 4, 5, 6, 7, 8, 9, 10, 11, 12, 13, 14, 15, 16, 17, 18, 19,
   20, 21, 22, 23, 24, 25, 26, 27, 28, 29, 30, 31, 32, 33, 34, 35, 36, 37,
   38, 39, 40, 41, 42, 43, 44, 45, 46, 47, 48, 49, 50, 51, 52, 53, 54, 55,
   56, 57, 58, 59, 60, 61, 62, 63, 64, 65, 66, 67, 68, 69, 70, 71, 72, 73,
   74, 75, 76, 77, 78, 79, 80]

/-- `cell.CandidateCount()` read through the board (0 for nil cells). -/
def cellCandidateCountAt (cells : List Cell) (index : Int) : Nat :=
  match cellAt cells index with
  | none => 0
  | some c => cellCandidateCount c

/-- Linear index of the cell at a (line, position) pair under a direction:
`GetCellAt(line, pos)` for row-based passes, `GetCellAt(pos, line)` for
column-based ones. -/
def dirIndex (rowBased : Bool) (line pos : Int) : Int :=
  if rowBased then line * 9 + pos else pos * 9 + line

/-- Positions 0..8 of a line where the candidate sits in an unsolved cell
(the `positions` slice of the X-Wing / Swordfish scans). -/
def linePositions (cells : List Cell) (rowBased : Bool) (candidate line : Int) :
    List Int :=
  lineList.filter (fun pos => hasCandidateAt cells (dirIndex rowBased line pos) candidate)

/-- Per-candidate X-Wing processing: snapshot the qualifying lines (exactly 2
positions), then for every pair of lines with identical positions eliminate
the candidate from those positions in all other lines. -/
def xwingCandidate (rowBased : Bool) (candidate : Int) (st : List Cell × Bool) :
    List Cell × Bool :=
  let snap := st.1
  let lines := lineList.filter
    (fun line => (linePositions snap rowBased candidate line).length = 2)
  (pairsOf lines).foldl (fun acc pr =>
    let pos1 := linePositions snap rowBased candidate pr.1
    let pos2 := linePositions snap rowBased candidate pr.2
    if pos1.length = 2 ∧ pos2.length = 2 ∧
        pos1.getD 0 0 = pos2.getD 0 0 ∧ pos1.getD 1 0 = pos2.getD 1 0 then
      elimFold acc
        (((lineList.filter (fun l => l ≠ pr.1 ∧ l ≠ pr.2)).map
          (fun otherLine => pos1.map
            (fun pos => (dirIndex rowBased otherLine pos, candidate)))).flatten)
    else acc) st

/-- Mirrors `Board.applyXWingsInDirection`. -/
def applyXWingsInDirection (rowBased : Bool) (cells : List Cell) :
    List Cell × Bool :=
  digitList.foldl (fun st candidate => xwingCandidate rowBased candidate st)
    (cells, false)

/-- Mirrors `Board.applyXWings` (rows then columns). -/
def applyXWings (cells : List Cell) : List Cell × Bool :=
  let r := applyXWingsInDirection true cells
  let c := applyXWingsInDirection false r.1
  (c.1, r.2 || c.2)

/-- Per-candidate Swordfish processing: snapshot lines holding the candidate
in 2 or 3 positions; every triple of lines whose positions union to exactly 3
eliminates the candidate from those positions in all other lines. -/
def swordfishCandidate (rowBased : Bool) (candidate : Int) (st : List Cell × Bool) :
    List Cell × Bool :=
  let snap := st.1
  let lines := lineList.filter (fun line =>
    let n := (linePositions snap rowBased candidate line).length
    2 ≤ n ∧ n ≤ 3)
  (triplesOf lines).foldl (fun acc tr =>
    let posUnion := ((linePositions snap rowBased candidate tr.1) ++
      (linePositions snap rowBased candidate tr.2.1) ++
      (linePositions snap rowBased candidate tr.2.2)).foldl
      (fun a p => if p ∈ a then a else a ++ [p]) []
    if posUnion.length = 3 then
      elimFold acc
        (((lineList.filter (fun l => l ≠ tr.1 ∧ l ≠ tr.2.1 ∧ l ≠ tr.2.2)).map
          (fun otherLine => posUnion.map
            (fun pos => (dirIndex rowBased otherLine pos, candidate)))).flatten)
    else acc) st

/-- Mirrors `Board.applySwordfishInDirection`. -/
def applySwordfishInDirection (rowBased : Bool) (cells : List Cell) :
    List Cell × Bool :=
  digitList.foldl (fun st candidate => swordfishCandidate rowBased candidate st)
    (cells, false)

/-- Mirrors `Board.applySwordfish` (rows then columns). -/
def applySwordfish (cells : List Cell) : List Cell × Bool :=
  let r := applySwordfishInDirection true cells
  let c := applySwordfishInDirection false r.1
  (c.1, r.2 || c.2)

/-- Mirrors `Board.getVisibleCells`: all other valid cell indices sharing at
least one registered constraint scope with the given index.  The Go function
returns the member set of a map in unspecified order; the model enumerates it
in ascending index order (visibility depends only on the static scopes, so
which order is chosen never affects the final board). -/
def visibleIdx (constraints : List Constraint) (index : Int) : List Int :=
  iota81.filter (fun j =>
    j ≠ index ∧ constraints.any (fun con =>
      decide (index ∈ con.scope) && decide (j ∈ con.scope)))

/-- The shared-candidate test of the XY-Wing scan: how many of the wing's two
candidates the pivot shares, and the leftover (`Z`) digit.  Reproduces the Go
branch pair that fills `sharedWithPivot` and `Z`. -/
def xyShared (wingCands : List Int) (x y : Int) : Nat × Int :=
  let c0 := wingCands.getD 0 0
  let c1 := wingCands.getD 1 0
  let s0 : Nat := if c0 = x ∨ c0 = y then 1 else 0
  let z0 : Int := if c0 = x ∨ c0 = y then 0 else c0
  let s1 : Nat := if c1 = x ∨ c1 = y then 1 else 0
  let z1 : Int := if c1 = x ∨ c1 = y then z0 else c1
  (s0 + s1, z1)

/-- Elimination phase of a discovered XY-Wing: drop `z` from every cell that
sees both wings, excluding the pattern cells themselves. -/
def xyEliminate (pivot wing1 wing2 z : Int) (w1vis w2vis : List Int)
    (st : List Cell × Bool) : List Cell × Bool :=
  w1vis.foldl (fun acc j =>
    if j = pivot ∨ j = wing1 ∨ j = wing2 then acc
    else if j ∈ w2vis ∧ hasCandidateAt acc.1 j z then
      ((removeCandAt acc.1 j z).1, true)
    else acc) st

/-- The wing2 scan of `applyXYWings` for a fixed pivot and wing1. -/
def xyWing2Scan (constraints : List Constraint) (pivot wing1 : Int)
    (x y z1 : Int) (visible : List Int) (st : List Cell × Bool) :
    List Cell × Bool :=
  visible.foldl (fun acc wing2 =>
    if wing2 = wing1 ∨ cellCandidateCountAt acc.1 wing2 ≠ 2 then acc
    else
      let wing2Cands := candSlice (candsAt acc.1 wing2)
      if wing2Cands.length ≠ 2 then acc
      else
        let s2 := xyShared wing2Cands x y
        if s2.1 ≠ 1 then acc
        else if z1 ≠ s2.2 then acc
        else
          xyEliminate pivot wing1 wing2 z1
            (visibleIdx constraints wing1) (visibleIdx constraints wing2) acc) st

/-- The wing1 scan of `applyXYWings` for a fixed pivot. -/
def xyWing1Scan (constraints : List Constraint) (pivot x y : Int)
    (visible : List Int) (st : List Cell × Bool) : List Cell × Bool :=
  visible.foldl (fun acc wing1 =>
    if cellCandidateCountAt acc.1 wing1 ≠ 2 then acc
    else
      let wing1Cands := candSlice (candsAt acc.1 wing1)
      if wing1Cands.length ≠ 2 then acc
      else
        let s1 := xyShared wing1Cands x y
        if s1.1 ≠ 1 then acc
        else xyWing2Scan constraints pivot wing1 x y s1.2 visible acc) st

/-- Mirrors `Board.applyXYWings`: pivots are the cells that held exactly two
candidates when the scan started; candidate data is re-read live exactly as
the Go loops do. -/
def applyXYWings (b : Board) : Board × Bool :=
  let pivots := iota81.filter (fun i =>
    isUnsolvedAt b.cells i && cellCandidateCountAt b.cells i = 2)
  let r := pivots.foldl (fun st pivot =>
    let pivotCands := candSlice (candsAt st.1 pivot)
    if pivotCands.length ≠ 2 then st
    else
      let x := pivotCands.getD 0 0
      let y := pivotCands.getD 1 0
      xyWing1Scan b.constraints pivot x y (visibleIdx b.constraints pivot) st)
    (b.cells, false)
  ({ b with cells := r.1 }, r.2)

/-- Mirrors `Board.ApplyAdvancedTechniques`: X-Wings, then Swordfish, then
XY-Wings, reporting whether any of them eliminated a candidate. -/
def applyAdvancedTechniques (b : Board) : Board × Bool :=
  let xw := applyXWings b.cells
  let sf := applySwordfish xw.1
  let xy := applyXYWings { b with cells := sf.1 }
  (xy.1, xw.2 || sf.2 || xy.2)

/-- Test fixture: a full 81-cell board with value 0 everywhere and prescribed
candidate sets (the "manual candidate pruning" setup of the scenarios; such
states are reachable through public `removeCandidate` calls). -/
def fixtureCells (f : Nat → List Int) : List Cell :=
  (List.range 81).map (fun (i : Nat) =>
    { row := (i : Int) / 9, col := (i : Int) % 9, value := 0, candidates := f i })

/-- Five-cell scope fixture refuting subset-pass idempotence: the naked pair
at indices 2,3 creates a fresh naked pair at indices 0,4 whose combination
the running pass has already walked past. -/
def c3cexCells : List Cell := fixtureCells (fun i =>
  if i = 0 then [1, 2, 4]
  else if i = 1 then [1, 3, 6]
  else if i = 2 then [4, 5]
  else if i = 3 then [4, 5]
  else if i = 4 then [1, 2]
  else digitList)

/-- Four-cell scope fixture for the naked-subset postcondition: the pair at
indices 0,1 strips the pair at indices 2,3 before it is examined. -/
def c5cexCells : List Cell := fixtureCells (fun i =>
  if i = 0 ∨ i = 1 then [1, 2]
  else if i = 2 ∨ i = 3 then [1, 3]
  else digitList)

/-- Scenario B fixture: a 9-cell row scope in which the unsolved cells A, B
hold exactly {3,7}, the unsolved cell C holds {3,7,9}, and the remaining six
row cells are already solved (values 1,2,4,5,6,8). -/
def scenarioBCells : List Cell :=
  (List.range 81).map (fun (i : Nat) =>
    { row := (i : Int) / 9, col := (i : Int) % 9,
      value :=
        if i = 3 then 1 else if i = 4 then 2 else if i = 5 then 4
        else if i = 6 then 5 else if i = 7 then 6 else if i = 8 then 8 else 0,
      candidates :=
        if i = 0 ∨ i = 1 then [3, 7]
        else if i = 2 then [3, 7, 9]
        else if i ≤ 8 then []
        else digitList })

/-- A scope on which the subset engine is already stable: a bare naked pair
with nothing left to eliminate. -/
def stablePairCells : List Cell := fixtureCells (fun i =>
  if i = 0 ∨ i = 1 then [1, 2] else digitList)

set_option maxHeartbeats 1000000 in
/-- Scenario C fixture: in rows 0 and 2 candidate 5 appears exactly at
columns 2 and 5 ({4,5} and {5,6} cells, single-candidate cells elsewhere in
those rows), candidate 5 is also present at row 5 column 2 ({5,9}), and every
other cell is already solved.  Spelled out as a literal 81-cell list so that
board lookups reduce cheaply. -/
def scenarioCCells : List Cell := [
  { row := 0, col := 0, value := 0, candidates := [1] },
  { row := 0, col := 1, value := 0, candidates := [1] },
  { row := 0, col := 2, value := 0, candidates := [4, 5] },
  { row := 0, col := 3, value := 0, candidates := [1] },
  { row := 0, col := 4, value := 0, candidates := [1] },
  { row := 0, col := 5, value := 0, candidates := [5, 6] },
  { row := 0, col := 6, value := 0, candidates := [1] },
  { row := 0, col := 7, value := 0, candidates := [1] },
  { row := 0, col := 8, value := 0, candidates := [1] },
  { row := 1, col := 0, value := 1, candidates := [] },
  { row := 1, col := 1, value := 1, candidates := [] },
  { row := 1, col := 2, value := 1, candidates := [] },
  { row := 1, col := 3, value := 1, candidates := [] },
  { row := 1, col := 4, value := 1, candidates := [] },
  { row := 1, col := 5, value := 1, candidates := [] },
  { row := 1, col := 6, value := 1, candidates := [] },
  { row := 1, col := 7, value := 1, candidates := [] },
  { row := 1, col := 8, value := 1, candidates := [] },
  { row := 2, col := 0, value := 0, candidates := [2] },
  { row := 2, col := 1, value := 0, candidates := [2] },
  { row := 2, col := 2, value := 0, candidates := [4, 5] },
  { row := 2, col := 3, value := 0, candidates := [2] },
  { row := 2, col := 4, value := 0, candidates := [2] },
  { row := 2, col := 5, value := 0, candidates := [5, 6] },
  { row := 2, col := 6, value := 0, candidates := [2] },
  { row := 2, col := 7, value := 0, candidates := [2] },
  { row := 2, col := 8, value := 0, candidates := [2] },
  { row := 3, col := 0, value := 1, candidates := [] },
  { row := 3, col := 1, value := 1, candidates := [] },
  { row := 3, col := 2, value := 1, candidates := [] },
  { row := 3, col := 3, value := 1, candidates := [] },
  { row := 3, col := 4, value := 1, candidates := [] },
  { row := 3, col := 5, value := 1, candidates := [] },
  { row := 3, col := 6, value := 1, candidates := [] },
  { row := 3, col := 7, value := 1, candidates := [] },
  { row := 3, col := 8, value := 1, candidates := [] },
  { row := 4, col := 0, value := 1, candidates := [] },
  { row := 4, col := 1, value := 1, candidates := [] },
  { row := 4, col := 2, value := 1, candidates := [] },
  { row := 4, col := 3, value := 1, candidates := [] },
  { row := 4, col := 4, value := 1, candidates := [] },
  { row := 4, col := 5, value := 1, candidates := [] },
  { row := 4, col := 6, value := 1, candidates := [] },
  { row := 4, col := 7, value := 1, candidates := [] },
  { row := 4, col := 8, value := 1, candidates := [] },
  { row := 5, col := 0, value := 1, candidates := [] },
  { row := 5, col := 1, value := 1, candidates := [] },
  { row := 5, col := 2, value := 0, candidates := [5, 9] },
  { row := 5, col := 3, value := 1, candidates := [] },
  { row := 5, col := 4, value := 1, candidates := [] },
  { row := 5, col := 5, value := 1, candidates := [] },
  { row := 5, col := 6, value := 1, candidates := [] },
  { row := 5, col := 7, value := 1, candidates := [] },
  { row := 5, col := 8, value := 1, candidates := [] },
  { row := 6, col := 0, value := 1, candidates := [] },
  { row := 6, col := 1, value := 1, candidates := [] },
  { row := 6, col := 2, value := 1, candidates := [] },
  { row := 6, col := 3, value := 1, candidates := [] },
  { row := 6, col := 4, value := 1, candidates := [] },
  { row := 6, col := 5, value := 1, candidates := [] },
  { row := 6, col := 6, value := 1, candidates := [] },
  { row := 6, col := 7, value := 1, candidates := [] },
  { row := 6, col := 8, value := 1, candidates := [] },
  { row := 7, col := 0, value := 1, candidates := [] },
  { row := 7, col := 1, value := 1, candidates := [] },
  { row := 7, col := 2, value := 1, candidates := [] },
  { row := 7, col := 3, value := 1, candidates := [] },
  { row := 7, col := 4, value := 1, candidates := [] },
  { row := 7, col := 5, value := 1, candidates := [] },
  { row := 7, col := 6, value := 1, candidates := [] },
  { row := 7, col := 7, value := 1, candidates := [] },
  { row := 7, col := 8, value := 1, candidates := [] },
  { row := 8, col := 0, value := 1, candidates := [] },
  { row := 8, col := 1, value := 1, candidates := [] },
  { row := 8, col := 2, value := 1, candidates := [] },
  { row := 8, col := 3, value := 1, candidates := [] },
  { row := 8, col := 4, value := 1, candidates := [] },
  { row := 8, col := 5, value := 1, candidates := [] },
  { row := 8, col := 6, value := 1, candidates := [] },
  { row := 8, col := 7, value := 1, candidates := [] },
  { row := 8, col := 8, value := 1, candidates := [] }
]

/-- Scenario C after the X-Wing pass: the rows-0/2 pair at columns 2 and 5
removes candidate 5 from row 5 column 2, and nothing else changes. -/
def scenarioCXWCells : List Cell :=
  scenarioCCells.set 47 { row := 5, col := 2, value := 0, candidates := [9] }

/-- Scenario C board: no constraints are registered (the X-Wing scan works on
raw rows and columns). -/
def scenarioCBoard : Board := { cells := scenarioCCells, constraints := [] }

/-- Fresh board with a single row-0 uniqueness constraint registered. -/
def rowBoard : Board := addConstraint newBoard (Constraint.rowC 0)

/-- Fresh board with a two-cell killer cage (target 9) on cells 0 and 1. -/
def killerBoard : Board := addConstraint newBoard (Constraint.killerCage [0, 1] 9)

/-! Basic lemmas about single-cell updates. -/

theorem cellRemoveCandidate_row (c : Cell) (cand : Int) :
    (cellRemoveCandidate c cand).1.row = c.row := by
  unfold cellRemoveCandidate
  split <;> rfl

theorem cellRemoveCandidate_value (c : Cell) (cand : Int) :
    (cellRemoveCandidate c cand).1.value = c.value := by
  unfold cellRemoveCandidate
  split <;> rfl

theorem cellRemoveCandidate_length_le (c : Cell) (cand : Int) :
    (cellRemoveCandidate c cand).1.candidates.length ≤ c.candidates.length := by
  unfold cellRemoveCandidate
  split
  · exact List.length_filter_le _ _
  · exact le_refl _

theorem cellRemoveCandidate_length_lt (c : Cell) (cand : Int)
    (hv : c.value = 0) (hm : cand ∈ c.candidates) :
    (cellRemoveCandidate c cand).1.candidates.length < c.candidates.length := by
  unfold cellRemoveCandidate
  rw [if_pos ⟨hv, hm⟩]
  simp only
  exact List.length_filter_lt_length_iff_exists.mpr ⟨cand, hm, by simp⟩

theorem cellRemoveCandidate_not_mem_self (c : Cell) (cand : Int) :
    cand ∉ (cellRemoveCandidate c cand).1.candidates ∨
      (cellRemoveCandidate c cand).1 = c := by
  unfold cellRemoveCandidate
  split
  · left
    simp
  · right
    rfl

theorem cellRemoveCandidate_mem_mono (c : Cell) (cand d : Int)
    (h : d ∈ (cellRemoveCandidate c cand).1.candidates) : d ∈ c.candidates := by
  unfold cellRemoveCandidate at h
  split at h
  · exact (List.mem_filter.mp h).1
  · exact h

theorem cellRemoveCandidate_mem_other (c : Cell) (cand d : Int) (hd : d ≠ cand) :
    (d ∈ (cellRemoveCandidate c cand).1.candidates) ↔ d ∈ c.candidates := by
  unfold cellRemoveCandidate
  split
  · simp [List.mem_filter, hd]
  · exact Iff.rfl

/-! Lemmas about reading and writing cells through the board. -/

theorem setCellAt_length (cells : List Cell) (i : Int) (c : Cell) :
    (setCellAt cells i c).length = cells.length := by
  unfold setCellAt
  split
  · rfl
  · exact List.length_set cells i.toNat c

theorem cellAt_setCellAt_self (cells : List Cell) (i : Int) (c c' : Cell)
    (h : cellAt cells i = some c) :
    cellAt (setCellAt cells i c') i = some c' := by
  unfold cellAt at h ⊢
  unfold setCellAt
  split at h
  · exact absurd h (by simp)
  · rename_i hb
    rw [if_neg hb, if_neg hb]
    have hlt : i.toNat < cells.length := by
      by_contra hge
      rw [List.getElem?_eq_none (by omega)] at h
      exact absurd h (by simp)
    simp [List.getElem?_set_self, hlt]

theorem cellAt_setCellAt_other (cells : List Cell) (i j : Int) (c' : Cell)
    (hij : i ≠ j) : cellAt (setCellAt cells i c') j = cellAt cells j := by
  unfold cellAt setCellAt
  split
  · rfl
  · rename_i hbi
    split
    · rfl
    · rename_i hbj
      have : i.toNat ≠ j.toNat := by omega
      rw [List.getElem?_set_ne this]

theorem removeCandAt_length (cells : List Cell) (i cand : Int) :
    (removeCandAt cells i cand).1.length = cells.length := by
  unfold removeCandAt
  split
  · rfl
  · exact setCellAt_length ..

theorem cellAt_removeCandAt_other (cells : List Cell) (i j cand : Int)
    (hij : i ≠ j) :
    cellAt (removeCandAt cells i cand).1 j = cellAt cells j := by
  unfold removeCandAt
  split
  · rfl
  · exact cellAt_setCellAt_other _ _ _ _ hij

theorem hasCandidateAt_removeCandAt_self (cells : List Cell) (i cand : Int) :
    hasCandidateAt (removeCandAt cells i cand).1 i cand = false := by
  unfold removeCandAt
  split
  · rename_i hnone
    unfold hasCandidateAt
    rw [hnone]
  · rename_i c hsome
    unfold hasCandidateAt
    rw [cellAt_setCellAt_self cells i c _ hsome]
    simp only [cellHasCandidate]
    rw [cellRemoveCandidate_value]
    by_cases hv : c.value ≠ 0
    · rw [if_pos hv]
    · rw [if_neg hv]
      rcases cellRemoveCandidate_not_mem_self c cand with h | h
      · simpa using h
      · have hv0 : c.value = 0 := by omega
        by_cases hm : cand ∈ c.candidates
        · exfalso
          have : (cellRemoveCandidate c cand).1.candidates.length < c.candidates.length :=
            cellRemoveCandidate_length_lt c cand hv0 hm
          rw [h] at this
          omega
        · simp only [h]
          simpa using hm

theorem hasCandidateAt_removeCandAt_mono (cells : List Cell) (i cand j d : Int)
    (h : hasCandidateAt cells j d = false) :
    hasCandidateAt (removeCandAt cells i cand).1 j d = false := by
  by_cases hij : i = j
  · subst hij
    unfold removeCandAt
    split
    · exact h
    · rename_i c hsome
      unfold hasCandidateAt at h ⊢
      rw [hsome] at h
      rw [cellAt_setCellAt_self cells i c _ hsome]
      simp only [cellHasCandidate] at h ⊢
      rw [cellRemoveCandidate_value]
      by_cases hv : c.value ≠ 0
      · rw [if_pos hv]
      · rw [if_neg hv] at h ⊢
        simp only [decide_eq_false_iff_not] at h ⊢
        exact fun hm => h (cellRemoveCandidate_mem_mono c cand d hm)
  · rw [hasCandidateAt, cellAt_removeCandAt_other cells i j cand hij]
    exact h

theorem hasCandidateAt_removeCandAt_other_cand (cells : List Cell) (i cand j d : Int)
    (hd : d ≠ cand) :
    hasCandidateAt (removeCandAt cells i cand).1 j d = hasCandidateAt cells j d := by
  by_cases hij : i = j
  · subst hij
    unfold removeCandAt
    split
    · rfl
    · rename_i c hsome
      unfold hasCandidateAt
      rw [hsome, cellAt_setCellAt_self cells i c _ hsome]
      simp only [cellHasCandidate]
      rw [cellRemoveCandidate_value]
      by_cases hv : c.value ≠ 0
      · rw [if_pos hv, if_pos hv]
      · rw [if_neg hv, if_neg hv]
        simp [cellRemoveCandidate_mem_other c cand d hd]
  · rw [hasCandidateAt, cellAt_removeCandAt_other cells i j cand hij]
    rfl

/-! Lemmas about the total-candidate measure. -/

theorem totalCands_cons (c : Cell) (cells : List Cell) :
    totalCands (c :: cells) = c.candidates.length + totalCands cells := by
  simp [totalCands]

theorem totalCands_set_eq (cells : List Cell) (n : Nat) (c : Cell)
    (h : n < cells.length) :
    totalCands (cells.set n c) + (cells.get ⟨n, h⟩).candidates.length =
      totalCands cells + c.candidates.length := by
  induction cells generalizing n with
  | nil => simp at h
  | cons hd tl ih =>
    cases n with
    | zero =>
      simp [List.set, totalCands_cons]
      omega
    | succ m =>
      have hm : m < tl.length := by simpa using h
      have := ih m hm
      simp only [List.set, totalCands_cons, List.get]
      omega

theorem totalCands_setCellAt_le (cells : List Cell) (i : Int) (c c' : Cell)
    (hsome : cellAt cells i = some c)
    (hlen : c'.candidates.length ≤ c.candidates.length) :
    totalCands (setCellAt cells i c') ≤ totalCands cells := by
  unfold cellAt at hsome
  unfold setCellAt
  split at hsome
  · exact absurd hsome (by simp)
  · rename_i hb
    rw [if_neg hb]
    have hlt : i.toNat < cells.length := by
      by_contra hge
      rw [List.getElem?_eq_none (by omega)] at hsome
      exact absurd hsome (by simp)
    have hget : cells.get ⟨i.toNat, hlt⟩ = c := by
      have := List.getElem?_eq_getElem hlt
      rw [this] at hsome
      simpa using hsome
    have := totalCands_set_eq cells i.toNat c' hlt
    rw [hget] at this
    omega

theorem totalCands_setCellAt_lt (cells : List Cell) (i : Int) (c c' : Cell)
    (hsome : cellAt cells i = some c)
    (hlen : c'.candidates.length < c.candidates.length) :
    totalCands (setCellAt cells i c') < totalCands cells := by
  unfold cellAt at hsome
  unfold setCellAt
  split at hsome
  · exact absurd hsome (by simp)
  · rename_i hb
    rw [if_neg hb]
    have hlt : i.toNat < cells.length := by
      by_contra hge
      rw [List.getElem?_eq_none (by omega)] at hsome
      exact absurd hsome (by simp)
    have hget : cells.get ⟨i.toNat, hlt⟩ = c := by
      have := List.getElem?_eq_getElem hlt
      rw [this] at hsome
      simpa using hsome
    have := totalCands_set_eq cells i.toNat c' hlt
    rw [hget] at this
    omega

theorem totalCands_removeCandAt_le (cells : List Cell) (i cand : Int) :
    totalCands (removeCandAt cells i cand).1 ≤ totalCands cells := by
  unfold removeCandAt
  split
  · exact le_refl _
  · rename_i c hsome
    exact totalCands_setCellAt_le cells i c _ hsome
      (cellRemoveCandidate_length_le c cand)

theorem totalCands_removeCandAt_lt (cells : List Cell) (i cand : Int)
    (h : hasCandidateAt cells i cand = true) :
    totalCands (removeCandAt cells i cand).1 < totalCands cells := by
  unfold hasCandidateAt at h
  unfold removeCandAt
  cases hsome : cellAt cells i with
  | none => rw [hsome] at h; exact absurd h (by simp)
  | some c =>
    rw [hsome] at h
    simp only [cellHasCandidate] at h
    by_cases hv : c.value ≠ 0
    · rw [if_pos hv] at h; exact absurd h (by simp)
    · rw [if_neg hv] at h
      have hv0 : c.value = 0 := by omega
      have hm : cand ∈ c.candidates := by simpa using h
      exact totalCands_setCellAt_lt cells i c _ hsome
        (cellRemoveCandidate_length_lt c cand hv0 hm)

/-! Generic fold lemmas and the elimination-fold toolbox. -/

theorem foldl_invariant {σ α : Type} (step : σ → α → σ) (P : σ → Prop)
    (hstep : ∀ st x, P st → P (step st x)) :
    ∀ (l : List α) (st : σ), P st → P (l.foldl step st) := by
  intro l
  induction l with
  | nil => intro st h; exact h
  | cons x xs ih => intro st h; exact ih (step st x) (hstep st x h)

theorem foldl_mem_establish {σ α : Type} [DecidableEq α] (step : σ → α → σ)
    (P : σ → Prop) (x : α)
    (hest : ∀ st, P (step st x)) (hpres : ∀ st y, P st → P (step st y)) :
    ∀ (l : List α) (st : σ), x ∈ l → P (l.foldl step st) := by
  intro l
  induction l with
  | nil => intro st h; simp at h
  | cons y ys ih =>
    intro st h
    by_cases hxy : x = y
    · subst hxy
      exact foldl_invariant step P hpres ys (step st x) (hest st)
    · have : x ∈ ys := by
        rcases List.mem_cons.mp h with h1 | h1
        · exact absurd h1 hxy
        · exact h1
      exact ih (step st y) this

theorem foldl_false_unchanged {α : Type}
    (step : (List Cell × Bool) → α → List Cell × Bool)
    (hstep : ∀ st x, (step st x).2 = false → step st x = st) :
    ∀ (l : List α) (st : List Cell × Bool),
      (l.foldl step st).2 = false → l.foldl step st = st := by
  intro l
  induction l with
  | nil => intro st _; rfl
  | cons x xs ih =>
    intro st h
    simp only [List.foldl_cons] at h ⊢
    have h1 := ih (step st x) h
    rw [h1] at h ⊢
    rw [hstep st x h]

theorem elimFold_flag_mono (ts : List (Int × Int)) :
    ∀ st : List Cell × Bool, st.2 = true → (elimFold st ts).2 = true := by
  induction ts with
  | nil => intro st h; exact h
  | cons t ts ih =>
    intro st h
    unfold elimFold
    simp only [List.foldl_cons]
    split
    · exact ih _ rfl
    · exact ih st h

theorem elimFold_hasCand_mono (ts : List (Int × Int)) (j d : Int) :
    ∀ st : List Cell × Bool, hasCandidateAt st.1 j d = false →
      hasCandidateAt (elimFold st ts).1 j d = false := by
  induction ts with
  | nil => intro st h; exact h
  | cons t ts ih =>
    intro st h
    unfold elimFold
    simp only [List.foldl_cons]
    split
    · exact ih _ (hasCandidateAt_removeCandAt_mono _ _ _ _ _ h)
    · exact ih st h

theorem elimFold_false (ts : List (Int × Int)) :
    ∀ st : List Cell × Bool, (elimFold st ts).2 = false →
      elimFold st ts = st ∧ st.2 = false := by
  induction ts with
  | nil => intro st h; exact ⟨rfl, h⟩
  | cons t ts ih =>
    intro st h
    unfold elimFold at h ⊢
    simp only [List.foldl_cons] at h ⊢
    by_cases hc : hasCandidateAt st.1 t.1 t.2 = true
    · rw [if_pos hc] at h
      have := (ih _ h).2
      simp at this
    · rw [if_neg hc] at h ⊢
      exact ih st h

theorem elimFold_removes (ts : List (Int × Int)) (i d : Int) :
    ∀ st : List Cell × Bool, (i, d) ∈ ts →
      hasCandidateAt (elimFold st ts).1 i d = false := by
  induction ts with
  | nil => intro st h; simp at h
  | cons t ts ih =>
    intro st hmem
    unfold elimFold
    simp only [List.foldl_cons]
    by_cases heq : (i, d) = t
    · subst heq
      split
      · exact elimFold_hasCand_mono ts i d _ (hasCandidateAt_removeCandAt_self ..)
      · rename_i hc
        exact elimFold_hasCand_mono ts i d st (by simpa using hc)
    · have : (i, d) ∈ ts := by
        rcases List.mem_cons.mp hmem with h1 | h1
        · exact absurd h1 heq
        · exact h1
      split
      · exact ih _ this
      · exact ih st this

theorem elimFold_outside (ts : List (Int × Int)) (j : Int) :
    ∀ st : List Cell × Bool, (∀ t ∈ ts, t.1 ≠ j) →
      cellAt (elimFold st ts).1 j = cellAt st.1 j := by
  induction ts with
  | nil => intro st _; rfl
  | cons t ts ih =>
    intro st hout
    unfold elimFold
    simp only [List.foldl_cons]
    have hts : ∀ t' ∈ ts, t'.1 ≠ j := fun t' ht' => hout t' (List.mem_cons_of_mem _ ht')
    split
    · exact (ih _ hts).trans
        (cellAt_removeCandAt_other _ _ _ _ (hout t (List.mem_cons_self ..)))
    · exact ih st hts

theorem elimFold_total_le (ts : List (Int × Int)) :
    ∀ st : List Cell × Bool, totalCands (elimFold st ts).1 ≤ totalCands st.1 := by
  induction ts with
  | nil => intro st; exact le_refl _
  | cons t ts ih =>
    intro st
    unfold elimFold
    simp only [List.foldl_cons]
    split
    · exact le_trans (ih _) (totalCands_removeCandAt_le ..)
    · exact ih st

theorem elimFold_strict (ts : List (Int × Int)) :
    ∀ st : List Cell × Bool, st.2 = false → (elimFold st ts).2 = true →
      totalCands (elimFold st ts).1 < totalCands st.1 := by
  induction ts with
  | nil =>
    intro st h0 h1
    rw [show elimFold st [] = st from rfl] at h1
    rw [h0] at h1
    simp at h1
  | cons t ts ih =>
    intro st h0 h1
    unfold elimFold at h1 ⊢
    simp only [List.foldl_cons] at h1 ⊢
    by_cases hc : hasCandidateAt st.1 t.1 t.2 = true
    · rw [if_pos hc] at h1 ⊢
      exact lt_of_le_of_lt (elimFold_total_le ts _)
        (totalCands_removeCandAt_lt _ _ _ hc)
    · rw [if_neg hc] at h1 ⊢
      exact ih st h0 h1

theorem elimFold_preserve_cand (ts : List (Int × Int)) (cand j d : Int)
    (hd : d ≠ cand) :
    ∀ st : List Cell × Bool, (∀ t ∈ ts, t.2 = cand) →
      hasCandidateAt (elimFold st ts).1 j d = hasCandidateAt st.1 j d := by
  induction ts with
  | nil => intro st _; rfl
  | cons t ts ih =>
    intro st hc
    unfold elimFold
    simp only [List.foldl_cons]
    have hts : ∀ t' ∈ ts, t'.2 = cand := fun t' ht' => hc t' (List.mem_cons_of_mem _ ht')
    split
    · have ht2 : t.2 = cand := hc t (List.mem_cons_self ..)
      rw [← ht2] at hd
      exact (ih _ hts).trans (hasCandidateAt_removeCandAt_other_cand _ _ _ _ _ hd)
    · exact ih st hts

/-- A step of a deduction fold either leaves the state alone or is an
elimination fold over some target list; every technique step has this shape. -/
def ElimShape {α : Type} (step : (List Cell × Bool) → α → List Cell × Bool) : Prop :=
  ∀ st x, step st x = st ∨ ∃ ts, step st x = elimFold st ts

theorem ElimShape.flag_mono {α : Type} {step : (List Cell × Bool) → α → List Cell × Bool}
    (hs : ElimShape step) (st : List Cell × Bool) (x : α) (h : st.2 = true) :
    (step st x).2 = true := by
  rcases hs st x with h1 | ⟨ts, h1⟩
  · rw [h1]; exact h
  · rw [h1]; exact elimFold_flag_mono ts st h

theorem ElimShape.hasCand_mono {α : Type}
    {step : (List Cell × Bool) → α → List Cell × Bool}
    (hs : ElimShape step) (st : List Cell × Bool) (x : α) (j d : Int)
    (h : hasCandidateAt st.1 j d = false) :
    hasCandidateAt ((step st x)).1 j d = false := by
  rcases hs st x with h1 | ⟨ts, h1⟩
  · rw [h1]; exact h
  · rw [h1]; exact elimFold_hasCand_mono ts j d st h

theorem ElimShape.false_unchanged {α : Type}
    {step : (List Cell × Bool) → α → List Cell × Bool}
    (hs : ElimShape step) (st : List Cell × Bool) (x : α)
    (h : (step st x).2 = false) : step st x = st := by
  rcases hs st x with h1 | ⟨ts, h1⟩
  · exact h1
  · rw [h1] at h ⊢; exact (elimFold_false ts st h).1

theorem ElimShape.total_le {α : Type}
    {step : (List Cell × Bool) → α → List Cell × Bool}
    (hs : ElimShape step) (st : List Cell × Bool) (x : α) :
    totalCands (step st x).1 ≤ totalCands st.1 := by
  rcases hs st x with h1 | ⟨ts, h1⟩
  · rw [h1]
  · rw [h1]; exact elimFold_total_le ts st

theorem ElimShape.strict_flip {α : Type}
    {step : (List Cell × Bool) → α → List Cell × Bool}
    (hs : ElimShape step) (st : List Cell × Bool) (x : α)
    (h0 : st.2 = false) (h1 : (step st x).2 = true) :
    totalCands (step st x).1 < totalCands st.1 := by
  rcases hs st x with h2 | ⟨ts, h2⟩
  · rw [h2] at h1; rw [h0] at h1; simp at h1
  · rw [h2] at h1 ⊢; exact elimFold_strict ts st h0 h1

theorem passFold_flag_mono {α : Type}
    {step : (List Cell × Bool) → α → List Cell × Bool} (hs : ElimShape step)
    (l : List α) (st : List Cell × Bool) (h : st.2 = true) :
    (l.foldl step st).2 = true :=
  foldl_invariant step (fun s => s.2 = true) (fun s x hp => hs.flag_mono s x hp) l st h

theorem passFold_hasCand_mono {α : Type}
    {step : (List Cell × Bool) → α → List Cell × Bool} (hs : ElimShape step)
    (l : List α) (st : List Cell × Bool) (j d : Int)
    (h : hasCandidateAt st.1 j d = false) :
    hasCandidateAt (l.foldl step st).1 j d = false :=
  foldl_invariant step (fun s => hasCandidateAt s.1 j d = false)
    (fun s x hp => hs.hasCand_mono s x j d hp) l st h

theorem passFold_false_unchanged {α : Type}
    {step : (List Cell × Bool) → α → List Cell × Bool} (hs : ElimShape step)
    (l : List α) (st : List Cell × Bool) (h : (l.foldl step st).2 = false) :
    l.foldl step st = st :=
  foldl_false_unchanged step (fun s x hf => hs.false_unchanged s x hf) l st h

theorem passFold_total_le {α : Type}
    {step : (List Cell × Bool) → α → List Cell × Bool} (hs : ElimShape step)
    (l : List α) (st : List Cell × Bool) :
    totalCands (l.foldl step st).1 ≤ totalCands st.1 :=
  foldl_invariant step (fun s => totalCands s.1 ≤ totalCands st.1)
    (fun s x hp => le_trans (hs.total_le s x) hp) l st (le_refl _)

theorem passFold_strict {α : Type}
    {step : (List Cell × Bool) → α → List Cell × Bool} (hs : ElimShape step)
    (l : List α) (st : List Cell × Bool) (h0 : st.2 = false)
    (h1 : (l.foldl step st).2 = true) :
    totalCands (l.foldl step st).1 < totalCands st.1 := by
  have key := foldl_invariant step
    (fun s => totalCands s.1 ≤ totalCands st.1 ∧
      (s.2 = true → totalCands s.1 < totalCands st.1))
    (by
      intro s x hp
      constructor
      · exact le_trans (hs.total_le s x) hp.1
      · intro hflag
        by_cases hs2 : s.2 = true
        · exact lt_of_le_of_lt (hs.total_le s x) (hp.2 hs2)
        · have : s.2 = false := by
            cases hb : s.2
            · rfl
            · exact absurd hb hs2
          exact lt_of_lt_of_le (hs.strict_flip s x this hflag) hp.1)
    l st ⟨le_refl _, by intro hb; rw [h0] at hb; simp at hb⟩
  exact key.2 h1

theorem nakedStep_shape (unsolved : List Int) : ElimShape (nakedStep unsolved) := by
  intro st combo
  simp only [nakedStep]
  split
  · right
    exact ⟨_, rfl⟩
  · left
    rfl

theorem hiddenStep_shape (active : List Int) (locs : Int → List Int) :
    ElimShape (hiddenStep active locs) := by
  intro st combo
  simp only [hiddenStep]
  split
  · right
    exact ⟨_, rfl⟩
  · left
    rfl

/-! Pass-level lemmas for the subset engine. -/

theorem applyNakedSubsets_shape (cells : List Cell) (scope : List Int) (m : Nat) :
    applyNakedSubsets cells scope m = (cells, false) ∨
    ∃ u combos, applyNakedSubsets cells scope m =
      List.foldl (nakedStep u) (cells, false) combos := by
  simp only [applyNakedSubsets]
  split
  · left; rfl
  · split
    · left; rfl
    · right; exact ⟨_, _, rfl⟩

theorem applyHiddenSubsets_shape (cells : List Cell) (scope : List Int) (m : Nat) :
    applyHiddenSubsets cells scope m = (cells, false) ∨
    ∃ a locs combos, applyHiddenSubsets cells scope m =
      List.foldl (hiddenStep a locs) (cells, false) combos := by
  simp only [applyHiddenSubsets]
  split
  · left; rfl
  · split
    · left; rfl
    · split
      · left; rfl
      · right; exact ⟨_, _, _, rfl⟩

theorem applyNakedSubsets_false_unchanged (cells : List Cell) (scope : List Int)
    (m : Nat) (h : (applyNakedSubsets cells scope m).2 = false) :
    (applyNakedSubsets cells scope m).1 = cells := by
  rcases applyNakedSubsets_shape cells scope m with h1 | ⟨u, combos, h1⟩
  · rw [h1]
  · rw [h1] at h ⊢
    rw [passFold_false_unchanged (nakedStep_shape u) combos _ h]

theorem applyHiddenSubsets_false_unchanged (cells : List Cell) (scope : List Int)
    (m : Nat) (h : (applyHiddenSubsets cells scope m).2 = false) :
    (applyHiddenSubsets cells scope m).1 = cells := by
  rcases applyHiddenSubsets_shape cells scope m with h1 | ⟨a, locs, combos, h1⟩
  · rw [h1]
  · rw [h1] at h ⊢
    rw [passFold_false_unchanged (hiddenStep_shape a locs) combos _ h]

theorem applyNakedSubsets_total_le (cells : List Cell) (scope : List Int) (m : Nat) :
    totalCands (applyNakedSubsets cells scope m).1 ≤ totalCands cells := by
  rcases applyNakedSubsets_shape cells scope m with h1 | ⟨u, combos, h1⟩
  · rw [h1]
  · rw [h1]
    exact passFold_total_le (nakedStep_shape u) combos _

theorem applyHiddenSubsets_total_le (cells : List Cell) (scope : List Int) (m : Nat) :
    totalCands (applyHiddenSubsets cells scope m).1 ≤ totalCands cells := by
  rcases applyHiddenSubsets_shape cells scope m with h1 | ⟨a, locs, combos, h1⟩
  · rw [h1]
  · rw [h1]
    exact passFold_total_le (hiddenStep_shape a locs) combos _

theorem applyNakedSubsets_strict (cells : List Cell) (scope : List Int) (m : Nat)
    (h : (applyNakedSubsets cells scope m).2 = true) :
    totalCands (applyNakedSubsets cells scope m).1 < totalCands cells := by
  rcases applyNakedSubsets_shape cells scope m with h1 | ⟨u, combos, h1⟩
  · rw [h1] at h; simp at h
  · rw [h1] at h ⊢
    exact passFold_strict (nakedStep_shape u) combos _ rfl h

theorem applyHiddenSubsets_strict (cells : List Cell) (scope : List Int) (m : Nat)
    (h : (applyHiddenSubsets cells scope m).2 = true) :
    totalCands (applyHiddenSubsets cells scope m).1 < totalCands cells := by
  rcases applyHiddenSubsets_shape cells scope m with h1 | ⟨a, locs, combos, h1⟩
  · rw [h1] at h; simp at h
  · rw [h1] at h ⊢
    exact passFold_strict (hiddenStep_shape a locs) combos _ rfl h

theorem applySubsetTechniques_false_unchanged (cells : List Cell)
    (scope : List Int) (m : Nat)
    (h : (applySubsetTechniques cells scope m).2 = false) :
    (applySubsetTechniques cells scope m).1 = cells := by
  simp only [applySubsetTechniques] at h ⊢
  have hn : (applyNakedSubsets cells scope m).2 = false := by
    rcases Bool.or_eq_false_iff.mp h with ⟨h1, _⟩
    exact h1
  have hh : (applyHiddenSubsets (applyNakedSubsets cells scope m).1 scope m).2 = false := by
    rcases Bool.or_eq_false_iff.mp h with ⟨_, h2⟩
    exact h2
  rw [applyHiddenSubsets_false_unchanged _ _ _ hh]
  exact applyNakedSubsets_false_unchanged _ _ _ hn

theorem applySubsetTechniques_total_le (cells : List Cell) (scope : List Int)
    (m : Nat) :
    totalCands (applySubsetTechniques cells scope m).1 ≤ totalCands cells := by
  simp only [applySubsetTechniques]
  exact le_trans (applyHiddenSubsets_total_le ..) (applyNakedSubsets_total_le ..)

theorem applySubsetTechniques_strict (cells : List Cell) (scope : List Int)
    (m : Nat) (h : (applySubsetTechniques cells scope m).2 = true) :
    totalCands (applySubsetTechniques cells scope m).1 < totalCands cells := by
  simp only [applySubsetTechniques] at h ⊢
  by_cases hn : (applyNakedSubsets cells scope m).2 = true
  · exact lt_of_le_of_lt (applyHiddenSubsets_total_le ..)
      (applyNakedSubsets_strict _ _ _ hn)
  · have hn' : (applyNakedSubsets cells scope m).2 = false := by
      cases hb : (applyNakedSubsets cells scope m).2
      · rfl
      · exact absurd hb hn
    have hh : (applyHiddenSubsets (applyNakedSubsets cells scope m).1 scope m).2 = true := by
      rcases Bool.or_eq_true_iff.mp h with h1 | h1
      · exact absurd h1 hn
      · exact h1
    exact lt_of_lt_of_le (applyHiddenSubsets_strict _ _ _ hh)
      (applyNakedSubsets_total_le ..)

theorem pencilPass_false_unchanged (con : Constraint) (cells : List Cell)
    (h : (con.applyPencilMarkPass cells).2 = false) :
    (con.applyPencilMarkPass cells).1 = cells := by
  cases con <;>
    first
      | exact applySubsetTechniques_false_unchanged _ _ _ h
      | rfl

theorem pencilPass_total_le (con : Constraint) (cells : List Cell) :
    totalCands (con.applyPencilMarkPass cells).1 ≤ totalCands cells := by
  cases con <;>
    first
      | exact applySubsetTechniques_total_le ..
      | exact le_refl _

theorem pencilPass_strict (con : Constraint) (cells : List Cell)
    (h : (con.applyPencilMarkPass cells).2 = true) :
    totalCands (con.applyPencilMarkPass cells).1 < totalCands cells := by
  cases con <;>
    first
      | exact applySubsetTechniques_strict _ _ _ h
      | simp [Constraint.applyPencilMarkPass] at h

/-! Board-level pencil-mark driver lemmas. -/

theorem foldl_total_le_general {α : Type}
    (step : (List Cell × Bool) → α → List Cell × Bool)
    (hle : ∀ st x, totalCands (step st x).1 ≤ totalCands st.1)
    (l : List α) (st : List Cell × Bool) :
    totalCands (l.foldl step st).1 ≤ totalCands st.1 :=
  foldl_invariant step (fun s => totalCands s.1 ≤ totalCands st.1)
    (fun s x hp => le_trans (hle s x) hp) l st (le_refl _)

theorem foldl_strict_general {α : Type}
    (step : (List Cell × Bool) → α → List Cell × Bool)
    (hle : ∀ st x, totalCands (step st x).1 ≤ totalCands st.1)
    (hflip : ∀ st x, st.2 = false → (step st x).2 = true →
      totalCands (step st x).1 < totalCands st.1)
    (l : List α) (st : List Cell × Bool) (h0 : st.2 = false)
    (h1 : (l.foldl step st).2 = true) :
    totalCands (l.foldl step st).1 < totalCands st.1 := by
  have key := foldl_invariant step
    (fun s => totalCands s.1 ≤ totalCands st.1 ∧
      (s.2 = true → totalCands s.1 < totalCands st.1))
    (by
      intro s x hp
      constructor
      · exact le_trans (hle s x) hp.1
      · intro hflag
        by_cases hs2 : s.2 = true
        · exact lt_of_le_of_lt (hle s x) (hp.2 hs2)
        · have hs2' : s.2 = false := by
            cases hb : s.2
            · rfl
            · exact absurd hb hs2
          exact lt_of_lt_of_le (hflip s x hs2' hflag) hp.1)
    l st ⟨le_refl _, by intro hb; rw [h0] at hb; simp at hb⟩
  exact key.2 h1

theorem pencilStep_false_unchanged (st : List Cell × Bool) (con : Constraint)
    (h : ((if con.requiresUniqueness then
        ((con.applyPencilMarkPass st.1).1, st.2 || (con.applyPencilMarkPass st.1).2)
      else st)).2 = false) :
    (if con.requiresUniqueness then
        ((con.applyPencilMarkPass st.1).1, st.2 || (con.applyPencilMarkPass st.1).2)
      else st) = st := by
  by_cases hu : con.requiresUniqueness
  · rw [if_pos hu] at h ⊢
    simp only at h
    rcases Bool.or_eq_false_iff.mp h with ⟨h1, h2⟩
    rw [pencilPass_false_unchanged _ _ h2, h, ← h1]
  · rw [if_neg hu]

theorem pencilStep_total_le (st : List Cell × Bool) (con : Constraint) :
    totalCands ((if con.requiresUniqueness then
        ((con.applyPencilMarkPass st.1).1, st.2 || (con.applyPencilMarkPass st.1).2)
      else st)).1 ≤ totalCands st.1 := by
  by_cases hu : con.requiresUniqueness
  · rw [if_pos hu]
    exact pencilPass_total_le ..
  · rw [if_neg hu]

theorem pencilStep_flip (st : List Cell × Bool) (con : Constraint)
    (h0 : st.2 = false)
    (h1 : ((if con.requiresUniqueness then
        ((con.applyPencilMarkPass st.1).1, st.2 || (con.applyPencilMarkPass st.1).2)
      else st)).2 = true) :
    totalCands ((if con.requiresUniqueness then
        ((con.applyPencilMarkPass st.1).1, st.2 || (con.applyPencilMarkPass st.1).2)
      else st)).1 < totalCands st.1 := by
  by_cases hu : con.requiresUniqueness
  · rw [if_pos hu] at h1 ⊢
    simp only [h0, Bool.false_or] at h1
    exact pencilPass_strict _ _ h1
  · rw [if_neg hu] at h1
    rw [h0] at h1
    simp at h1

theorem applyPencilMarkConstraints_eq (b : Board) :
    applyPencilMarkConstraints b =
      (let r := b.constraints.foldl (fun acc con =>
        if con.requiresUniqueness then
          ((con.applyPencilMarkPass acc.1).1, acc.2 || (con.applyPencilMarkPass acc.1).2)
        else acc) (b.cells, false)
      ({ b with cells := r.1 }, r.2)) := rfl

theorem applyPencilMarkConstraints_false_unchanged (b : Board)
    (h : (applyPencilMarkConstraints b).2 = false) :
    (applyPencilMarkConstraints b).1 = b := by
  rw [applyPencilMarkConstraints_eq] at h ⊢
  simp only at h ⊢
  have := foldl_false_unchanged _ pencilStep_false_unchanged b.constraints (b.cells, false) h
  rw [this]

theorem applyPencilMarkConstraints_strict (b : Board)
    (h : (applyPencilMarkConstraints b).2 = true) :
    totalCands (applyPencilMarkConstraints b).1.cells < totalCands b.cells := by
  rw [applyPencilMarkConstraints_eq] at h ⊢
  simp only at h ⊢
  exact foldl_strict_general _ pencilStep_total_le pencilStep_flip
    b.constraints (b.cells, false) rfl h

/-! Termination of the until-stable driver. -/

theorem untilStableFuel_pos (fuel : Nat) (b : Board) (h : 1 ≤ fuel) :
    1 ≤ (untilStableFuel fuel b).2 := by
  cases fuel with
  | zero => omega
  | succ f =>
    simp only [untilStableFuel]
    split
    · omega
    · exact le_refl _

theorem untilStableFuel_adequate (fuel1 : Nat) :
    ∀ (fuel2 : Nat) (b : Board), totalCands b.cells < fuel1 →
      totalCands b.cells < fuel2 →
      untilStableFuel fuel1 b = untilStableFuel fuel2 b := by
  induction fuel1 with
  | zero => intro fuel2 b h1 _; omega
  | succ f1 ih =>
    intro fuel2 b h1 h2
    cases fuel2 with
    | zero => omega
    | succ f2 =>
      simp only [untilStableFuel]
      by_cases hch : (applyPencilMarkConstraints b).2 = true
      · rw [if_pos hch, if_pos hch]
        have hlt := applyPencilMarkConstraints_strict b hch
        rw [ih f2 (applyPencilMarkConstraints b).1 (by omega) (by omega)]
      · rw [if_neg hch, if_neg hch]

/-! Duplicate detection by `HasUniqueNonZeros`. -/

theorem hasUniqueNonZerosAux_true_count (l : List Int) :
    ∀ seen : List Int, hasUniqueNonZerosAux l seen = true →
      ∀ v : Int, 1 ≤ v → v ≤ 9 →
        l.count v + (if v ∈ seen then 1 else 0) ≤ 1 := by
  induction l with
  | nil =>
    intro seen _ v _ _
    simp only [List.count_nil]
    split <;> omega
  | cons x rest ih =>
    intro seen h v hv1 hv9
    unfold hasUniqueNonZerosAux at h
    by_cases hx0 : x = 0
    · rw [if_pos hx0] at h
      have hxv : x ≠ v := by omega
      rw [List.count_cons_of_ne (by omega) rest]
      exact ih seen h v hv1 hv9
    · rw [if_neg hx0] at h
      by_cases hxr : x < 1 ∨ x > 9
      · rw [if_pos hxr] at h
        simp at h
      · rw [if_neg hxr] at h
        by_cases hxs : x ∈ seen
        · rw [if_pos hxs] at h
          simp at h
        · rw [if_neg hxs] at h
          have key := ih (x :: seen) h v hv1 hv9
          by_cases hvx : v = x
          · subst hvx
            rw [List.count_cons_self]
            have hmem : v ∈ v :: seen := List.mem_cons_self ..
            rw [if_pos hmem] at key
            rw [if_neg hxs]
            omega
          · rw [List.count_cons_of_ne (by omega) rest]
            have : (v ∈ x :: seen) ↔ v ∈ seen := by
              constructor
              · intro hm
                rcases List.mem_cons.mp hm with h1 | h1
                · exact absurd h1 hvx
                · exact h1
              · exact fun hm => List.mem_cons_of_mem _ hm
            by_cases hvs : v ∈ seen
            · rw [if_pos (this.mpr hvs)] at key
              rw [if_pos hvs]
              omega
            · rw [if_neg (fun hm => hvs (this.mp hm))] at key
              rw [if_neg hvs]
              omega

theorem hasUniqueNonZeros_duplicate (values : List Int) (v : Int)
    (hv1 : 1 ≤ v) (hv9 : v ≤ 9) (hdup : 2 ≤ values.count v) :
    hasUniqueNonZeros values = false := by
  cases hb : hasUniqueNonZeros values
  · rfl
  · exfalso
    have := hasUniqueNonZerosAux_true_count values [] hb v hv1 hv9
    simp at this
    omega

/-! The propagation chain never increases the total candidate count. -/

theorem getCellAt_cellAt (cells : List Cell) (row col : Int) (c : Cell)
    (h : getCellAt cells row col = some c) :
    cellAt cells (row * 9 + col) = some c := by
  unfold getCellAt at h
  split at h
  · exact absurd h (by simp)
  · rename_i hb
    unfold cellAt
    rw [if_neg (by omega)]
    exact h

theorem foldl_notif_total_le {α : Type}
    (step : (List Cell × List Notification) → α → List Cell × List Notification)
    (hle : ∀ st x, totalCands (step st x).1 ≤ totalCands st.1)
    (l : List α) (st : List Cell × List Notification) :
    totalCands (l.foldl step st).1 ≤ totalCands st.1 :=
  foldl_invariant step (fun s => totalCands s.1 ≤ totalCands st.1)
    (fun s x hp => le_trans (hle s x) hp) l st (le_refl _)

theorem ite_remove_total_le (p : Prop) [Decidable p]
    (s : List Cell × List Notification) (i cand : Int) :
    totalCands (if p then
        ((removeCandAt s.1 i cand).1, s.2 ++ (removeCandAt s.1 i cand).2)
      else s).1 ≤ totalCands s.1 := by
  split
  · exact totalCands_removeCandAt_le ..
  · exact le_refl _

theorem propagateUniqueRemoval_total_le (scope : List Int) (row col value : Int)
    (st : List Cell × List Notification) :
    totalCands (propagateUniqueRemoval scope row col value st).1 ≤ totalCands st.1 := by
  unfold propagateUniqueRemoval
  apply foldl_notif_total_le
  intro s cellIndex
  dsimp only
  split
  · split
    · exact le_refl _
    · rename_i otherCell hsome
      split
      · exact totalCands_setCellAt_le s.1 _ otherCell _
          (getCellAt_cellAt _ _ _ _ hsome) (cellRemoveCandidate_length_le ..)
      · exact le_refl _
  · exact le_refl _

theorem killerSumPruning_total_le (cageCells : List Int) (targetSum : Int)
    (st : List Cell × List Notification) :
    totalCands (killerSumPruning cageCells targetSum st).1 ≤ totalCands st.1 := by
  unfold killerSumPruning
  apply foldl_notif_total_le
  intro s idx
  dsimp only
  split
  · exact le_refl _
  · split
    · apply foldl_notif_total_le
      intro s2 candidate
      dsimp only
      split
      · split
        · exact totalCands_removeCandAt_le ..
        · exact le_refl _
      · split
        · exact totalCands_removeCandAt_le ..
        · exact le_refl _
    · exact le_refl _

theorem renbanRangePruning_total_le (lineCells : List Int) (value : Int)
    (st : List Cell × List Notification) :
    totalCands (renbanRangePruning lineCells value st).1 ≤ totalCands st.1 := by
  unfold renbanRangePruning
  apply foldl_notif_total_le
  intro s idx
  dsimp only
  split
  · exact le_refl _
  · split
    · apply foldl_notif_total_le
      intro s2 candidate
      exact ite_remove_total_le ..
    · exact le_refl _

theorem whispersPruneNeighbour_total_le (neighbourIdx value : Int)
    (st : List Cell × List Notification) :
    totalCands (whispersPruneNeighbour neighbourIdx value st).1 ≤ totalCands st.1 := by
  unfold whispersPruneNeighbour
  split
  · exact le_refl _
  · split
    · apply foldl_notif_total_le
      intro s2 candidate
      dsimp only
      split
      · exact totalCands_removeCandAt_le ..
      · exact le_refl _
    · exact le_refl _

theorem whispersPropagate_total_le (lineCells : List Int) (row col value : Int)
    (cells : List Cell) :
    totalCands (whispersPropagate lineCells row col value cells).1 ≤
      totalCands cells := by
  unfold whispersPropagate
  split
  · exact le_refl _
  · split
    · refine le_trans (whispersPruneNeighbour_total_le ..) ?_
      split
      · exact whispersPruneNeighbour_total_le ..
      · exact le_refl _
    · split
      · exact whispersPruneNeighbour_total_le ..
      · exact le_refl _

theorem propagateValueChange_total_le (con : Constraint) (cells : List Cell)
    (row col value : Int) :
    totalCands (con.propagateValueChange cells row col value).1 ≤ totalCands cells := by
  unfold Constraint.propagateValueChange
  split
  · exact le_refl _
  · split
    · exact propagateUniqueRemoval_total_le ..
    · exact propagateUniqueRemoval_total_le ..
    · exact propagateUniqueRemoval_total_le ..
    · exact le_trans (killerSumPruning_total_le ..) (propagateUniqueRemoval_total_le ..)
    · exact le_trans (renbanRangePruning_total_le ..) (propagateUniqueRemoval_total_le ..)
    · exact whispersPropagate_total_le ..

theorem cellSetValue_length_le (c : Cell) (v : Int) :
    (cellSetValue c v).1.candidates.length ≤ c.candidates.length := by
  unfold cellSetValue
  split
  · exact le_refl _
  · split
    · simp
    · exact le_refl _

theorem totalCands_listSet_le (cells : List Cell) (n : Nat) (c' : Cell)
    (h : ∀ cOld, cells[n]? = some cOld →
      c'.candidates.length ≤ cOld.candidates.length) :
    totalCands (cells.set n c') ≤ totalCands cells := by
  cases hc : cells[n]? with
  | none =>
    have hlen : cells.length ≤ n := by
      by_contra hlt
      rw [List.getElem?_eq_getElem (by omega)] at hc
      exact absurd hc (by simp)
    rw [List.set_eq_of_length_le hlen]
  | some cOld =>
    have hlt : n < cells.length := by
      by_contra hge
      rw [List.getElem?_eq_none (by omega)] at hc
      exact absurd hc (by simp)
    have hget : cells.get ⟨n, hlt⟩ = cOld := by
      rw [List.getElem?_eq_getElem hlt] at hc
      simpa using hc
    have heq := totalCands_set_eq cells n c' hlt
    rw [hget] at heq
    have := h cOld hc
    omega

theorem boardSet_total_le (b : Board) (row col value : Int) :
    totalCands (boardSet b row col value).1.cells ≤ totalCands b.cells := by
  by_cases hb : row < 0 ∨ row > 8 ∨ col < 0 ∨ col > 8
  · unfold boardSet
    rw [if_pos hb]
  · unfold boardSet
    rw [if_neg hb]
    simp only
    split
    · exact le_refl _
    · rename_i c1 cellNotifs heq
      have hc1len : c1.candidates.length ≤
          ((b.cells[(row * 9 + col).toNat]?).getD (newCell row col)).candidates.length := by
        have := cellSetValue_length_le
          ((b.cells[(row * 9 + col).toNat]?).getD (newCell row col)) value
        rw [heq] at this
        exact this
      have hb1 : totalCands (b.cells.set (row * 9 + col).toNat c1) ≤
          totalCands b.cells := by
        apply totalCands_listSet_le
        intro cOld hold
        rw [hold] at hc1len
        exact hc1len
      split
      · simp only
        refine le_trans ?_ hb1
        apply foldl_notif_total_le
        intro st con
        dsimp only
        split
        · exact propagateValueChange_total_le ..
        · exact le_refl _
      · exact hb1

/-! Machinery for the naked-subset postcondition (claim C5). -/

theorem foldl_invariant_mem {σ α : Type} (step : σ → α → σ) (P : σ → Prop) :
    ∀ (l : List α), (∀ st x, x ∈ l → P st → P (step st x)) →
      ∀ st : σ, P st → P (l.foldl step st) := by
  intro l
  induction l with
  | nil => intro _ st h; exact h
  | cons x xs ih =>
    intro hstep st h
    exact ih (fun st' y hy hp => hstep st' y (List.mem_cons_of_mem _ hy) hp)
      (step st x) (hstep st x (List.mem_cons_self ..) h)

theorem foldl_split_at {σ α : Type} (step : σ → α → σ) (l : List α) (i : Nat)
    (h : i < l.length) (st : σ) :
    l.foldl step st =
      (l.drop (i + 1)).foldl step (step ((l.take i).foldl step st) (l.get ⟨i, h⟩)) := by
  conv_lhs => rw [← List.take_append_drop i l]
  rw [List.foldl_append]
  rw [List.drop_eq_getElem_cons h]
  rfl

theorem subsetCombos_nonempty_two_le (n maxSize : Nat)
    (h : subsetCombos n maxSize ≠ []) : 2 ≤ maxSize := by
  unfold subsetCombos at h
  by_contra hlt
  have h0 : maxSize - 1 = 0 := by omega
  rw [h0] at h
  simp at h

theorem applyNakedSubsets_eq_foldl (cells : List Cell) (scope : List Int) (m : Nat)
    (h2 : 2 ≤ (scope.filter (fun i => isUnsolvedAt cells i)).length) :
    applyNakedSubsets cells scope m =
      (subsetCombos (scope.filter (fun i => isUnsolvedAt cells i)).length
        (if (scope.filter (fun i => isUnsolvedAt cells i)).length < m then
          (scope.filter (fun i => isUnsolvedAt cells i)).length
        else m)).foldl
        (nakedStep (scope.filter (fun i => isUnsolvedAt cells i))) (cells, false) := by
  have hscope : ¬scope.isEmpty = true := by
    intro he
    rw [List.isEmpty_iff.mp he] at h2
    simp at h2
  simp only [applyNakedSubsets]
  rw [if_neg hscope, if_neg (by omega)]

theorem nakedStep_effect (u : List Int) (st : List Cell × Bool) (combo : List Nat)
    (hcond : (candidateUnionAt st.1 (combo.map (fun p => u.getD p 0))).length =
      combo.length) :
    (∀ j ∈ u, j ∉ combo.map (fun p => u.getD p 0) →
      ∀ c ∈ candidateUnionAt st.1 (combo.map (fun p => u.getD p 0)),
        hasCandidateAt (nakedStep u st combo).1 j c = false) ∧
    (∀ j ∈ combo.map (fun p => u.getD p 0),
      cellAt (nakedStep u st combo).1 j = cellAt st.1 j) := by
  have hstep : nakedStep u st combo = elimFold st
      (((u.filter (fun i =>
          decide (i ∉ combo.map (fun p => u.getD p 0)))).map
        (fun i => (candidateUnionAt st.1 (combo.map (fun p => u.getD p 0))).map
          (fun c => (i, c)))).flatten) := by
    simp only [nakedStep]
    rw [if_pos hcond]
  constructor
  · intro j hj hnot c hc
    rw [hstep]
    apply elimFold_removes
    rw [List.mem_flatten]
    refine ⟨(candidateUnionAt st.1 (combo.map (fun p => u.getD p 0))).map
      (fun c => (j, c)), ?_, ?_⟩
    · exact List.mem_map_of_mem _ (List.mem_filter.mpr ⟨hj, by simpa using hnot⟩)
    · exact List.mem_map_of_mem _ hc
  · intro j hj
    rw [hstep]
    apply elimFold_outside
    intro t ht
    rw [List.mem_flatten] at ht
    rcases ht with ⟨sub, hsub, htsub⟩
    rw [List.mem_map] at hsub
    rcases hsub with ⟨i, hi, rfl⟩
    rw [List.mem_map] at htsub
    rcases htsub with ⟨c, _, rfl⟩
    have := (List.mem_filter.mp hi).2
    simp only [decide_eq_true_eq] at this
    intro hcontra
    exact this (by rw [show i = j from hcontra]; exact hj)

/-! Machinery for the X-Wing postcondition (claim C6). -/

theorem pairsOf_mem {l : List Int} (hp : l.Pairwise (fun a b => a < b))
    {a b : Int} (ha : a ∈ l) (hb : b ∈ l) (hab : a < b) : (a, b) ∈ pairsOf l := by
  induction l with
  | nil => simp at ha
  | cons x xs ih =>
    have hx : ∀ y ∈ xs, x < y := (List.pairwise_cons.mp hp).1
    have htail : xs.Pairwise (fun a b => a < b) := (List.pairwise_cons.mp hp).2
    unfold pairsOf
    rw [List.mem_append]
    by_cases hax : a = x
    · subst hax
      left
      have hbxs : b ∈ xs := by
        rcases List.mem_cons.mp hb with h1 | h1
        · omega
        · exact h1
      exact List.mem_map_of_mem _ hbxs
    · right
      have haxs : a ∈ xs := by
        rcases List.mem_cons.mp ha with h1 | h1
        · exact absurd h1 hax
        · exact h1
      have hbxs : b ∈ xs := by
        rcases List.mem_cons.mp hb with h1 | h1
        · exfalso
          have := hx a haxs
          omega
        · exact h1
      exact ih htail haxs hbxs

theorem xwingPairStep_shape (rowBased : Bool) (candidate : Int) (snap : List Cell) :
    ElimShape (fun (acc : List Cell × Bool) (pr : Int × Int) =>
      if (linePositions snap rowBased candidate pr.1).length = 2 ∧
          (linePositions snap rowBased candidate pr.2).length = 2 ∧
          (linePositions snap rowBased candidate pr.1).getD 0 0 =
            (linePositions snap rowBased candidate pr.2).getD 0 0 ∧
          (linePositions snap rowBased candidate pr.1).getD 1 0 =
            (linePositions snap rowBased candidate pr.2).getD 1 0 then
        elimFold acc
          (((lineList.filter (fun l => l ≠ pr.1 ∧ l ≠ pr.2)).map
            (fun otherLine => (linePositions snap rowBased candidate pr.1).map
              (fun pos => (dirIndex rowBased otherLine pos, candidate)))).flatten)
      else acc) := by
  intro st pr
  dsimp only
  split
  · right; exact ⟨_, rfl⟩
  · left; rfl

theorem xwingCandidate_eq (rowBased : Bool) (candidate : Int) (st : List Cell × Bool) :
    xwingCandidate rowBased candidate st =
      (pairsOf (lineList.filter
        (fun line => (linePositions st.1 rowBased candidate line).length = 2))).foldl
        (fun acc pr =>
          if (linePositions st.1 rowBased candidate pr.1).length = 2 ∧
              (linePositions st.1 rowBased candidate pr.2).length = 2 ∧
              (linePositions st.1 rowBased candidate pr.1).getD 0 0 =
                (linePositions st.1 rowBased candidate pr.2).getD 0 0 ∧
              (linePositions st.1 rowBased candidate pr.1).getD 1 0 =
                (linePositions st.1 rowBased candidate pr.2).getD 1 0 then
            elimFold acc
              (((lineList.filter (fun l => l ≠ pr.1 ∧ l ≠ pr.2)).map
                (fun otherLine => (linePositions st.1 rowBased candidate pr.1).map
                  (fun pos => (dirIndex rowBased otherLine pos, candidate)))).flatten)
          else acc) st := rfl

theorem xwingTargets_cand (rowBased : Bool) (candidate : Int) (ps : List Int)
    (linesOther : List Int) (t : Int × Int)
    (ht : t ∈ ((linesOther.map
      (fun otherLine => ps.map (fun pos => (dirIndex rowBased otherLine pos, candidate)))).flatten)) :
    t.2 = candidate := by
  rw [List.mem_flatten] at ht
  rcases ht with ⟨sub, hsub, htsub⟩
  rw [List.mem_map] at hsub
  rcases hsub with ⟨line, _, rfl⟩
  rw [List.mem_map] at htsub
  rcases htsub with ⟨pos, _, rfl⟩
  rfl

theorem xwingCandidate_hasCand_mono (rowBased : Bool) (candidate : Int)
    (st : List Cell × Bool) (j d : Int)
    (h : hasCandidateAt st.1 j d = false) :
    hasCandidateAt (xwingCandidate rowBased candidate st).1 j d = false := by
  rw [xwingCandidate_eq]
  exact passFold_hasCand_mono (xwingPairStep_shape rowBased candidate st.1) _ _ _ _ h

theorem xwingCandidate_preserve (rowBased : Bool) (c d : Int) (hdc : d ≠ c)
    (st : List Cell × Bool) (j : Int) :
    hasCandidateAt (xwingCandidate rowBased c st).1 j d = hasCandidateAt st.1 j d := by
  rw [xwingCandidate_eq]
  apply foldl_invariant _
    (fun s : List Cell × Bool => hasCandidateAt s.1 j d = hasCandidateAt st.1 j d)
  · intro s pr hp
    dsimp only
    split
    · rw [← hp]
      exact elimFold_preserve_cand _ c j d hdc s (fun t ht => xwingTargets_cand _ c _ _ t ht)
    · exact hp
  · rfl

theorem xwingCandidate_establish (rowBased : Bool) (cand L1 L2 L p : Int)
    (ps : List Int) (st : List Cell × Bool)
    (hp1 : linePositions st.1 rowBased cand L1 = ps)
    (hp2 : linePositions st.1 rowBased cand L2 = ps)
    (hlen : ps.length = 2)
    (hL1 : L1 ∈ lineList) (hL2 : L2 ∈ lineList) (hlt : L1 < L2)
    (hL : L ∈ lineList) (hne1 : L ≠ L1) (hne2 : L ≠ L2) (hp : p ∈ ps) :
    hasCandidateAt (xwingCandidate rowBased cand st).1
      (dirIndex rowBased L p) cand = false := by
  rw [xwingCandidate_eq]
  have hmem1 : L1 ∈ lineList.filter
      (fun line => (linePositions st.1 rowBased cand line).length = 2) := by
    apply List.mem_filter.mpr
    refine ⟨hL1, ?_⟩
    rw [hp1]
    simp [hlen]
  have hmem2 : L2 ∈ lineList.filter
      (fun line => (linePositions st.1 rowBased cand line).length = 2) := by
    apply List.mem_filter.mpr
    refine ⟨hL2, ?_⟩
    rw [hp2]
    simp [hlen]
  have hpw : (lineList.filter
      (fun line => (linePositions st.1 rowBased cand line).length = 2)).Pairwise
      (fun a b => a < b) := by
    apply List.Pairwise.sublist (List.filter_sublist _)
    show lineList.Pairwise (fun a b => a < b)
    decide
  have hpair := pairsOf_mem hpw hmem1 hmem2 hlt
  apply foldl_mem_establish _
    (fun s : List Cell × Bool =>
      hasCandidateAt s.1 (dirIndex rowBased L p) cand = false) (L1, L2)
  · intro s
    dsimp only
    rw [if_pos ⟨by rw [hp1]; exact hlen, by rw [hp2]; exact hlen,
      by rw [hp1, hp2], by rw [hp1, hp2]⟩]
    apply elimFold_removes
    rw [List.mem_flatten]
    refine ⟨(linePositions st.1 rowBased cand L1).map
      (fun pos => (dirIndex rowBased L pos, cand)), ?_, ?_⟩
    · apply List.mem_map_of_mem
      apply List.mem_filter.mpr
      exact ⟨hL, by simp [hne1, hne2]⟩
    · apply List.mem_map_of_mem
      rw [hp1]
      exact hp
  · intro s pr hP
    exact (xwingPairStep_shape rowBased cand st.1).hasCand_mono s pr _ cand hP
  · exact hpair

theorem applyXWingsInDirection_pair (cells : List Cell) (rowBased : Bool)
    (cand L1 L2 : Int) (ps : List Int)
    (hcand : cand ∈ digitList) (hL1 : L1 ∈ lineList) (hL2 : L2 ∈ lineList)
    (hlt : L1 < L2)
    (hp1 : linePositions cells rowBased cand L1 = ps)
    (hp2 : linePositions cells rowBased cand L2 = ps)
    (hlen : ps.length = 2) :
    ∀ L ∈ lineList, L ≠ L1 → L ≠ L2 → ∀ p ∈ ps,
      hasCandidateAt (applyXWingsInDirection rowBased cells).1
        (dirIndex rowBased L p) cand = false := by
  intro L hL hne1 hne2 p hp
  unfold applyXWingsInDirection
  obtain ⟨s, t, hsplit⟩ := List.append_of_mem hcand
  have hnodup : digitList.Nodup := by decide
  have hcand_not_s : cand ∉ s := by
    rw [hsplit] at hnodup
    intro hin
    exact (List.nodup_append.mp hnodup).2.2 hin (List.mem_cons_self ..)
  have key : ∀ j, hasCandidateAt
      (s.foldl (fun st candidate => xwingCandidate rowBased candidate st)
        (cells, false)).1 j cand = hasCandidateAt cells j cand := by
    apply foldl_invariant_mem _
      (fun st : List Cell × Bool =>
        ∀ j, hasCandidateAt st.1 j cand = hasCandidateAt cells j cand) s
    · intro st x hx hP j
      have hxc : cand ≠ x := by
        intro he
        rw [he] at hcand_not_s
        exact hcand_not_s hx
      rw [xwingCandidate_preserve rowBased x cand hxc st j]
      exact hP j
    · intro j
      rfl
  have hpres : ∀ l : Int, linePositions
      (s.foldl (fun st candidate => xwingCandidate rowBased candidate st)
        (cells, false)).1 rowBased cand l = linePositions cells rowBased cand l := by
    intro l
    unfold linePositions
    apply List.filter_congr
    intro pos _
    rw [key]
  rw [hsplit, List.foldl_append]
  simp only [List.foldl_cons]
  apply foldl_invariant _
    (fun st : List Cell × Bool =>
      hasCandidateAt st.1 (dirIndex rowBased L p) cand = false)
  · intro st x hP
    exact xwingCandidate_hasCand_mono rowBased x st _ cand hP
  · exact xwingCandidate_establish rowBased cand L1 L2 L p ps _
      ((hpres L1).trans hp1) ((hpres L2).trans hp2) hlen hL1 hL2 hlt hL hne1 hne2 hp

/-! Claim theorems. -/

/-- Claim C1 counterexample: clearing a previously solved cell does reset the
value to 0 and fires no notification, but the candidate set stays exactly as
it was — empty for a solved cell — rather than being restored to the full
set {1..9} as the claim states. -/
theorem claimC1_counterexample :
    (cellSetValue ((cellSetValue (newCell 0 0) 5).1) 0).1.value = 0 ∧
    (cellSetValue ((cellSetValue (newCell 0 0) 5).1) 0).2.2 = [] ∧
    (cellSetValue ((cellSetValue (newCell 0 0) 5).1) 0).1.candidates = [] ∧
    (cellSetValue ((cellSetValue (newCell 0 0) 5).1) 0).1.candidates ≠ digitList := by
  refine ⟨rfl, rfl, rfl, ?_⟩
  decide

/-- Claim C1 amended: `setValue(0)` resets the value to 0 and fires no
CellSolved notification, but leaves the candidate set unchanged (so a
previously solved cell stays unsolved with an empty candidate set, not with
all nine candidates). -/
theorem claimC1_amended (c : Cell) :
    cellSetValue c 0 = ({ c with value := 0 }, none, []) := rfl

set_option maxRecDepth 1000000 in
set_option maxHeartbeats 2000000 in
/-- Claim C2 counterexample: with a row-0 uniqueness constraint registered,
the reachable call sequence `set(0,0,5); set(0,1,5)` succeeds and leaves the
digit 5 twice inside the row scope. -/
theorem claimC2_counterexample :
    (Constraint.rowC 0).requiresUniqueness = true ∧
    (boardSet rowBoard 0 0 5).2.1 = none ∧
    (boardSet (boardSet rowBoard 0 0 5).1 0 1 5).2.1 = none ∧
    boardGet (boardSet (boardSet rowBoard 0 0 5).1 0 1 5).1 0 0 = 5 ∧
    boardGet (boardSet (boardSet rowBoard 0 0 5).1 0 1 5).1 0 1 = 5 ∧
    2 ≤ ((constraintValues (Constraint.rowC 0)
      (boardSet (boardSet rowBoard 0 0 5).1 0 1 5).1.cells).count 5) := by
  refine ⟨rfl, rfl, rfl, rfl, rfl, ?_⟩
  decide

/-- Claim C2 amended: `set` does not prevent duplicate digits inside a
uniqueness scope — such states are reachable — but every uniqueness-requiring
constraint detects them: whenever a digit occurs at least twice among the
values its validity check reads, `isValid` returns false (with no error). -/
theorem claimC2_amended (con : Constraint) (cells : List Cell) (v : Int)
    (hu : con.requiresUniqueness = true) (hv1 : 1 ≤ v) (hv9 : v ≤ 9)
    (hdup : 2 ≤ (constraintValues con cells).count v) :
    constraintIsValid con (some cells) = .ok false := by
  cases con with
  | rowC r =>
    simp only [constraintIsValid]
    rw [hasUniqueNonZeros_duplicate _ v hv1 hv9 hdup]
  | colC c =>
    simp only [constraintIsValid]
    rw [hasUniqueNonZeros_duplicate _ v hv1 hv9 hdup]
  | boxC bx =>
    simp only [constraintIsValid]
    rw [hasUniqueNonZeros_duplicate _ v hv1 hv9 hdup]
  | killerCage cs t =>
    simp only [constraintIsValid]
    rw [hasUniqueNonZeros_duplicate _ v hv1 hv9 hdup]
    simp
  | renban cs =>
    simp only [constraintIsValid]
    rw [hasUniqueNonZeros_duplicate _ v hv1 hv9 hdup]
    split <;> simp
  | germanWhispers cs =>
    simp [Constraint.requiresUniqueness] at hu

set_option maxRecDepth 1000000 in
set_option maxHeartbeats 2000000 in
/-- Claim C2 amended, witness: the duplicated row of the counterexample board
is reported invalid by the row constraint. -/
theorem claimC2_amended_witness :
    (Constraint.rowC 0).requiresUniqueness = true ∧ (1 : Int) ≤ 5 ∧ (5 : Int) ≤ 9 ∧
    2 ≤ ((constraintValues (Constraint.rowC 0)
      (boardSet (boardSet rowBoard 0 0 5).1 0 1 5).1.cells).count 5) ∧
    constraintIsValid (Constraint.rowC 0)
      (some (boardSet (boardSet rowBoard 0 0 5).1 0 1 5).1.cells) = .ok false :=
  ⟨rfl, by decide, by decide, by decide,
    claimC2_amended (Constraint.rowC 0) _ 5 rfl (by decide) (by decide) (by decide)⟩

set_option maxRecDepth 1000000 in
set_option maxHeartbeats 2000000 in
/-- Claim C3 counterexample: on the five-cell scope fixture with subset cap 2,
the combined naked-and-hidden pass reports changed=true on the second call as
well — the engine is not idempotent after a single call. -/
theorem claimC3_counterexample :
    (applySubsetTechniques c3cexCells [0, 1, 2, 3, 4] 2).2 = true ∧
    (applySubsetTechniques (applySubsetTechniques c3cexCells [0, 1, 2, 3, 4] 2).1
      [0, 1, 2, 3, 4] 2).2 = true := ⟨rfl, rfl⟩

/-- Claim C3 amended: the subset engine stabilises rather than being
idempotent after one call — a call that reports changed=false has left the
board untouched, and every further call on that board also reports
changed=false. -/
theorem claimC3_amended (cells : List Cell) (scope : List Int) (m : Nat)
    (h : (applySubsetTechniques cells scope m).2 = false) :
    (applySubsetTechniques cells scope m).1 = cells ∧
    (applySubsetTechniques (applySubsetTechniques cells scope m).1 scope m).2 =
      false := by
  have h1 := applySubsetTechniques_false_unchanged cells scope m h
  refine ⟨h1, ?_⟩
  rw [h1]
  exact h

set_option maxRecDepth 1000000 in
set_option maxHeartbeats 2000000 in
/-- Claim C3 amended, witness: a bare naked pair is already stable. -/
theorem claimC3_amended_witness :
    (applySubsetTechniques stablePairCells [0, 1] 2).2 = false ∧
    (applySubsetTechniques stablePairCells [0, 1] 2).1 = stablePairCells ∧
    (applySubsetTechniques (applySubsetTechniques stablePairCells [0, 1] 2).1
      [0, 1] 2).2 = false := by
  have h : (applySubsetTechniques stablePairCells [0, 1] 2).2 = false := rfl
  have h2 := claimC3_amended stablePairCells [0, 1] 2 h
  exact ⟨h, h2.1, h2.2⟩

set_option maxRecDepth 1000000 in
set_option maxHeartbeats 2000000 in
/-- Claim C4: Scenario A.  On a fresh board with the row-0 constraint, setting
columns 0..7 of row 0 to 1..8 in order succeeds, leaves cell (0,8) with
candidate set exactly {9}, fires SingleCandidate(0,8,9) during the sequence,
and `get(0,8)` still returns 0. -/
theorem claimC4 :
    (boardSetSeq rowBoard
      [(0, 0, 1), (0, 1, 2), (0, 2, 3), (0, 3, 4),
       (0, 4, 5), (0, 5, 6), (0, 6, 7), (0, 7, 8)]).2.1 = [] ∧
    candsAt (boardSetSeq rowBoard
      [(0, 0, 1), (0, 1, 2), (0, 2, 3), (0, 3, 4),
       (0, 4, 5), (0, 5, 6), (0, 6, 7), (0, 7, 8)]).1.cells 8 = [9] ∧
    Notification.singleCandidate 0 8 9 ∈ (boardSetSeq rowBoard
      [(0, 0, 1), (0, 1, 2), (0, 2, 3), (0, 3, 4),
       (0, 4, 5), (0, 5, 6), (0, 6, 7), (0, 7, 8)]).2.2 ∧
    boardGet (boardSetSeq rowBoard
      [(0, 0, 1), (0, 1, 2), (0, 2, 3), (0, 3, 4),
       (0, 4, 5), (0, 5, 6), (0, 6, 7), (0, 7, 8)]).1 0 8 = 0 := by
  refine ⟨rfl, rfl, ?_, rfl⟩
  decide

set_option maxRecDepth 1000000 in
set_option maxHeartbeats 2000000 in
/-- Claim C7: Scenario D.  A two-cell killer cage with target 9: setting the
first cell to 4 leaves the second cell with candidate set exactly {5}, and
after setting the second cell to 5 the cage validates with no error. -/
theorem claimC7 :
    (boardSet killerBoard 0 0 4).2.1 = none ∧
    candsAt (boardSet killerBoard 0 0 4).1.cells 1 = [5] ∧
    (boardSet (boardSet killerBoard 0 0 4).1 0 1 5).2.1 = none ∧
    constraintIsValid (Constraint.killerCage [0, 1] 9)
      (some (boardSet (boardSet killerBoard 0 0 4).1 0 1 5).1.cells) =
        .ok true :=
  ⟨rfl, rfl, rfl, rfl⟩

/-- Claim C8: an out-of-range position or value makes `set` return an error
while leaving the board (cells, candidates and registered constraints alike)
untouched and firing no notification; repeating the call reproduces the same
error on the same unchanged board. -/
theorem claimC8 (b : Board) (row col value : Int)
    (h : row < 0 ∨ row > 8 ∨ col < 0 ∨ col > 8 ∨ value < 0 ∨ value > 9) :
    (boardSet b row col value).1 = b ∧
    (boardSet b row col value).2.1.isSome = true ∧
    (boardSet b row col value).2.2 = [] ∧
    boardSet ((boardSet b row col value).1) row col value =
      boardSet b row col value := by
  have main : (boardSet b row col value).1 = b ∧
      (boardSet b row col value).2.1.isSome = true ∧
      (boardSet b row col value).2.2 = [] := by
    by_cases hpos : row < 0 ∨ row > 8 ∨ col < 0 ∨ col > 8
    · unfold boardSet
      rw [if_pos hpos]
      exact ⟨rfl, rfl, rfl⟩
    · have hval : value < 0 ∨ value > 9 := by
        rcases h with h1 | h1 | h1 | h1 | h1 | h1
        · exact absurd (Or.inl h1) hpos
        · exact absurd (Or.inr (Or.inl h1)) hpos
        · exact absurd (Or.inr (Or.inr (Or.inl h1))) hpos
        · exact absurd (Or.inr (Or.inr (Or.inr h1))) hpos
        · exact Or.inl h1
        · exact Or.inr h1
      unfold boardSet
      rw [if_neg hpos]
      simp only
      rw [show cellSetValue ((b.cells[(row * 9 + col).toNat]?).getD
          (newCell row col)) value =
          (((b.cells[(row * 9 + col).toNat]?).getD (newCell row col)),
            some { message := "value must be between 0 and 9" }, []) from by
        unfold cellSetValue
        rw [if_pos hval]]
      exact ⟨rfl, rfl, rfl⟩
  refine ⟨main.1, main.2.1, main.2.2, ?_⟩
  rw [main.1]

/-- Claim C8 witness: an oversized value on a fresh board. -/
theorem claimC8_witness :
    ((0 : Int) < 0 ∨ (0 : Int) > 8 ∨ (0 : Int) < 0 ∨ (0 : Int) > 8 ∨
      (99 : Int) < 0 ∨ (99 : Int) > 9) ∧
    ((boardSet newBoard 0 0 99).1 = newBoard ∧
      (boardSet newBoard 0 0 99).2.1.isSome = true ∧
      (boardSet newBoard 0 0 99).2.2 = [] ∧
      boardSet ((boardSet newBoard 0 0 99).1) 0 0 99 =
        boardSet newBoard 0 0 99) :=
  ⟨by decide, claimC8 newBoard 0 0 99 (by decide)⟩

/-- Claim C10: out-of-bounds reads are total and silent — `get` with a row or
column outside [0,8] returns 0, exactly what an unsolved cell reads as,
rather than an error. -/
theorem claimC10 (b : Board) (row col : Int)
    (h : row < 0 ∨ row > 8 ∨ col < 0 ∨ col > 8) :
    boardGet b row col = 0 := by
  unfold boardGet boardGetCells
  rw [if_pos h]

/-- Claim C10 witness: a negative row on a fresh board reads as 0, as does an
ordinary unsolved cell. -/
theorem claimC10_witness :
    ((-1 : Int) < 0 ∨ (-1 : Int) > 8 ∨ (3 : Int) < 0 ∨ (3 : Int) > 8) ∧
    boardGet newBoard (-1) 3 = 0 ∧ boardGet newBoard 0 0 = 0 :=
  ⟨by decide, claimC10 newBoard (-1) 3 (by decide), rfl⟩

set_option maxRecDepth 1000000 in
set_option maxHeartbeats 2000000 in
/-- Claim C5 counterexample: in the four-cell fixture with cap 2, the cells at
indices 2 and 3 form a combination of two unsolved cells whose candidate
union {1,3} has exactly two members, yet after one naked-subset pass the
other unsolved cell at index 0 still holds candidate 1 — the pair at indices
0,1 stripped the 2,3-pair before its combination was examined. -/
theorem claimC5_counterexample :
    isUnsolvedAt c5cexCells 2 = true ∧ isUnsolvedAt c5cexCells 3 = true ∧
    candidateUnionAt c5cexCells [2, 3] = [1, 3] ∧
    (candidateUnionAt c5cexCells [2, 3]).length = 2 ∧
    isUnsolvedAt c5cexCells 0 = true ∧
    (1 : Int) ∈ candidateUnionAt c5cexCells [2, 3] ∧
    hasCandidateAt (applyNakedSubsets c5cexCells [0, 1, 2, 3] 2).1 0 1 = true := by
  refine ⟨rfl, rfl, rfl, rfl, rfl, ?_, rfl⟩
  decide

set_option maxRecDepth 1000000 in
set_option maxHeartbeats 2000000 in
/-- Claim C5 amended: in one naked-subset pass, every combination whose
candidate union has exactly k members at the moment the pass examines it has
those candidates removed from every other unsolved scope cell by the end of
the pass, and that combination's own elimination leaves the k member cells
untouched; together with Scenario B: cells A,B = {3,7} and C = {3,7,9} in a
row scope leave C with exactly {9} after one pencil-mark pass. -/
theorem claimC5_amended :
    (∀ (cells : List Cell) (scope : List Int) (m : Nat) (u : List Int)
        (maxSize : Nat) (combos : List (List Nat)) (i : Nat),
      u = scope.filter (fun x => isUnsolvedAt cells x) →
      maxSize = (if u.length < m then u.length else m) →
      combos = subsetCombos u.length maxSize →
      i < combos.length →
      (candidateUnionAt ((combos.take i).foldl (nakedStep u) (cells, false)).1
        ((combos.getD i []).map (fun p => u.getD p 0))).length =
          (combos.getD i []).length →
      (∀ j ∈ u, j ∉ (combos.getD i []).map (fun p => u.getD p 0) →
        ∀ c ∈ candidateUnionAt
            ((combos.take i).foldl (nakedStep u) (cells, false)).1
            ((combos.getD i []).map (fun p => u.getD p 0)),
          hasCandidateAt (applyNakedSubsets cells scope m).1 j c = false) ∧
      (∀ j ∈ (combos.getD i []).map (fun p => u.getD p 0),
        cellAt (nakedStep u ((combos.take i).foldl (nakedStep u) (cells, false))
            (combos.getD i [])).1 j =
          cellAt ((combos.take i).foldl (nakedStep u) (cells, false)).1 j)) ∧
    (candsAt (Constraint.applyPencilMarkPass (Constraint.rowC 0) scenarioBCells).1
        2 = [9] ∧
      (Constraint.applyPencilMarkPass (Constraint.rowC 0) scenarioBCells).2 =
        true) := by
  constructor
  · intro cells scope m u maxSize combos i hu hms hcombos hi hcond
    subst hu
    subst hms
    subst hcombos
    have hne : subsetCombos (scope.filter (fun x => isUnsolvedAt cells x)).length
        (if (scope.filter (fun x => isUnsolvedAt cells x)).length < m then
          (scope.filter (fun x => isUnsolvedAt cells x)).length
        else m) ≠ [] := by
      intro h0
      rw [h0] at hi
      simp at hi
    have h2m := subsetCombos_nonempty_two_le _ _ hne
    have h2u : 2 ≤ (scope.filter (fun x => isUnsolvedAt cells x)).length := by
      by_cases hlt : (scope.filter (fun x => isUnsolvedAt cells x)).length < m
      · rw [if_pos hlt] at h2m
        exact h2m
      · rw [if_neg hlt] at h2m
        omega
    have heq := applyNakedSubsets_eq_foldl cells scope m h2u
    have hgetD : (subsetCombos (scope.filter (fun x => isUnsolvedAt cells x)).length
        (if (scope.filter (fun x => isUnsolvedAt cells x)).length < m then
          (scope.filter (fun x => isUnsolvedAt cells x)).length
        else m)).getD i [] =
        (subsetCombos (scope.filter (fun x => isUnsolvedAt cells x)).length
          (if (scope.filter (fun x => isUnsolvedAt cells x)).length < m then
            (scope.filter (fun x => isUnsolvedAt cells x)).length
          else m)).get ⟨i, hi⟩ := by
      rw [List.getD_eq_getElem?_getD, List.getElem?_eq_getElem hi]
      rfl
    constructor
    · intro j hj hnot c hc
      rw [heq, foldl_split_at _ _ i hi]
      apply passFold_hasCand_mono
        (nakedStep_shape (scope.filter (fun x => isUnsolvedAt cells x)))
      rw [← hgetD]
      rw [hgetD] at hcond hnot hc
      rw [hgetD]
      exact (nakedStep_effect _ _ _ hcond).1 j hj hnot c hc
    · exact (nakedStep_effect _ _ _ hcond).2
  · constructor
    · rfl
    · rfl

set_option maxRecDepth 1000000 in
set_option maxHeartbeats 2000000 in
/-- Claim C5 amended, witness: the naked pair at the first examined
combination of Scenario B strips 3 and 7 from the rest of the scope. -/
theorem claimC5_amended_witness :
    hasCandidateAt (applyNakedSubsets scenarioBCells (Constraint.rowC 0).scope 4).1
      2 3 = false ∧
    hasCandidateAt (applyNakedSubsets scenarioBCells (Constraint.rowC 0).scope 4).1
      2 7 = false := by
  have key := claimC5_amended.1 scenarioBCells (Constraint.rowC 0).scope 4
    _ _ _ 0 rfl rfl rfl (by decide) (by decide)
  exact ⟨key.1 2 (by decide) (by decide) 3 (by decide),
    key.1 2 (by decide) (by decide) 7 (by decide)⟩

set_option maxRecDepth 1000000 in
set_option maxHeartbeats 16000000 in
/-- Scenario C, stage 1: the X-Wing pass (rows then columns) eliminates
candidate 5 from row 5 column 2 and reports a change. -/
theorem scenarioC_xwings_eq :
    applyXWings scenarioCCells = (scenarioCXWCells, true) := by decide

set_option maxRecDepth 1000000 in
set_option maxHeartbeats 16000000 in
/-- Scenario C, stage 2: the Swordfish pass finds nothing on the post-X-Wing
state. -/
theorem scenarioC_swordfish_eq :
    applySwordfish scenarioCXWCells = (scenarioCXWCells, false) := by decide

set_option maxRecDepth 1000000 in
set_option maxHeartbeats 16000000 in
/-- Scenario C, stage 3: the XY-Wing pass finds nothing on the post-X-Wing
state (no constraints are registered, so no cell sees any other). -/
theorem scenarioC_xywings_eq :
    applyXYWings { cells := scenarioCXWCells, constraints := [] } =
      ({ cells := scenarioCXWCells, constraints := [] }, false) := by decide

set_option maxRecDepth 1000000 in
/-- Scenario C, combined: `applyAdvancedTechniques` returns the post-X-Wing
board and reports a change. -/
theorem scenarioC_advanced_eq :
    applyAdvancedTechniques scenarioCBoard =
      ({ cells := scenarioCXWCells, constraints := [] }, true) := by
  have hc : scenarioCBoard.cells = scenarioCCells := rfl
  have hb : ({ scenarioCBoard with cells := scenarioCXWCells } : Board) =
      { cells := scenarioCXWCells, constraints := [] } := rfl
  simp only [applyAdvancedTechniques, hc, scenarioC_xwings_eq,
    scenarioC_swordfish_eq, hb, scenarioC_xywings_eq]
  rfl

set_option maxRecDepth 1000000 in
set_option maxHeartbeats 2000000 in
/-- Claim C6: the X-Wing pass removes a matched digit from the shared
positions of every other line — for any board state, digit, direction and
pair of lines holding the digit in the same two unsolved positions — and in
Scenario C running `applyAdvancedTechniques` removes candidate 5 from row 5,
column 2. -/
theorem claimC6 :
    (∀ (cells : List Cell) (rowBased : Bool) (cand L1 L2 : Int) (ps : List Int),
      cand ∈ digitList → L1 ∈ lineList → L2 ∈ lineList → L1 < L2 →
      linePositions cells rowBased cand L1 = ps →
      linePositions cells rowBased cand L2 = ps →
      ps.length = 2 →
      ∀ L ∈ lineList, L ≠ L1 → L ≠ L2 → ∀ p ∈ ps,
        hasCandidateAt (applyXWingsInDirection rowBased cells).1
          (dirIndex rowBased L p) cand = false) ∧
    (hasCandidateAt scenarioCCells (5 * 9 + 2) 5 = true ∧
      linePositions scenarioCCells true 5 0 = [2, 5] ∧
      linePositions scenarioCCells true 5 2 = [2, 5] ∧
      hasCandidateAt (applyAdvancedTechniques scenarioCBoard).1.cells
        (5 * 9 + 2) 5 = false) := by
  constructor
  · intro cells rowBased cand L1 L2 ps hcand hL1 hL2 hlt hp1 hp2 hlen
    exact applyXWingsInDirection_pair cells rowBased cand L1 L2 ps hcand hL1 hL2
      hlt hp1 hp2 hlen
  · refine ⟨rfl, rfl, rfl, ?_⟩
    rw [scenarioC_advanced_eq]
    decide

set_option maxRecDepth 1000000 in
set_option maxHeartbeats 2000000 in
/-- Claim C6 witness: the row-based pass alone already removes candidate 5
from row 5, column 2 in Scenario C. -/
theorem claimC6_witness :
    linePositions scenarioCCells true 5 0 = [2, 5] ∧
    linePositions scenarioCCells true 5 2 = [2, 5] ∧
    hasCandidateAt (applyXWingsInDirection true scenarioCCells).1
      (dirIndex true 5 2) 5 = false :=
  ⟨rfl, rfl, claimC6.1 scenarioCCells true 5 0 2 [2, 5] (by decide) (by decide)
    (by decide) (by decide) rfl rfl rfl 5 (by decide) (by decide) (by decide)
    2 (by decide)⟩

/-- Claim C9: all elimination steps are non-increasing in the total candidate
count and every actual elimination strictly decreases it (the well-founded
measure of §5); the propagation chain of a `set` call never increases the
measure; a pencil-mark pass that reports a change strictly decreases it; and
the until-stable driver is fuel-independent beyond that measure (so the Go
loop terminates), always returns an iteration count of at least 1, and
returns exactly 1 when no constraints are registered. -/
theorem claimC9 :
    (∀ (cells : List Cell) (i cand : Int),
      totalCands (removeCandAt cells i cand).1 ≤ totalCands cells) ∧
    (∀ (cells : List Cell) (i cand : Int), hasCandidateAt cells i cand = true →
      totalCands (removeCandAt cells i cand).1 < totalCands cells) ∧
    (∀ (b : Board) (row col value : Int),
      totalCands (boardSet b row col value).1.cells ≤ totalCands b.cells) ∧
    (∀ b : Board, (applyPencilMarkConstraints b).2 = true →
      totalCands (applyPencilMarkConstraints b).1.cells < totalCands b.cells) ∧
    (∀ (b : Board) (fuel : Nat), totalCands b.cells < fuel →
      untilStableFuel fuel b = applyPencilMarkUntilStable b) ∧
    (∀ b : Board, 1 ≤ (applyPencilMarkUntilStable b).2) ∧
    (∀ b : Board, b.constraints = [] → (applyPencilMarkUntilStable b).2 = 1) := by
  refine ⟨totalCands_removeCandAt_le, totalCands_removeCandAt_lt,
    boardSet_total_le, applyPencilMarkConstraints_strict, ?_, ?_, ?_⟩
  · intro b fuel h
    exact untilStableFuel_adequate fuel (totalCands b.cells + 1) b h
      (Nat.lt_succ_self _)
  · intro b
    exact untilStableFuel_pos _ b (by omega)
  · intro b hc
    have hr : (applyPencilMarkConstraints b).2 = false := by
      rw [applyPencilMarkConstraints_eq]
      simp only [hc, List.foldl_nil]
    unfold applyPencilMarkUntilStable
    simp only [untilStableFuel, hr]
    simp
